import Mathlib

/-!
# Verification of `transient-btree-index`

A shallow embedding, in Lean 4, of the core data structures and algorithms of
the `transient-btree-index` repository, together with proofs and refutations of
the frozen claims C1 .. C10.

Conventions used throughout this development:

* Machine integers (`u64`, `usize`, ...) are modelled as `Nat`; where the Rust
  code can wrap or panic on arithmetic, the wrap is made explicit
  (`% 2 ^ 64`) or the operation returns an error.
* Byte buffers (memory mapped regions, `GenericArray`s) are `List Nat`, one
  `Nat` per byte, little-endian where the source reads or writes multi-byte
  integers.
* Fallible Rust code returning `Result<T, Error>` becomes `Except Error T`;
  Rust panics that the claims care about (slice length mismatches, out of
  bounds accesses) are modelled as distinguished error values.
* Recursion that Rust performs on a linked structure of node ids is given an
  explicit fuel parameter; all theorems supply enough fuel for the trees they
  speak about.
-/

/-- Equality of `Except` values is decidable when it is on both components
(used to evaluate the executable models on concrete inputs). -/
instance instDecEqExcept [DecidableEq e] [DecidableEq a] : DecidableEq (Except e a) :=
  fun x y =>
    match x, y with
    | Except.ok a₁, Except.ok a₂ =>
      if h : a₁ = a₂ then Decidable.isTrue (by rw [h])
      else Decidable.isFalse (by intro hc; injection hc; contradiction)
    | Except.error e₁, Except.error e₂ =>
      if h : e₁ = e₂ then Decidable.isTrue (by rw [h])
      else Decidable.isFalse (by intro hc; injection hc; contradiction)
    | Except.ok _, Except.error _ => Decidable.isFalse (by intro hc; cases hc)
    | Except.error _, Except.ok _ => Decidable.isFalse (by intro hc; cases hc)

/-- Mirror of `src/error.rs` (`enum Error`), restricted to the variants that
the modelled operations can produce. -/
inductive Error where
  | existingBlockTooSmall : Nat → Nat → Error
  | orderTooSmall : Nat → Error
  | orderTooLarge : Nat → Error
  | keyIndexOutOfBounds : Nat → Nat → Error
  | insertFoundInternalNode : Error
  | emptyChildNodeInSplit : Error
  | invalidCapacity : Nat → Error
  | deserializeBlock : Error
  | ioError : Error
  | intConversion : Error
  | sliceConversion : Error
  | nonExistingKey : Error
  deriving DecidableEq, Repr

namespace Ser

/-!
## Model of `src/serializer.rs`

`GenericArray<u8, N>` is a byte list of length `N`.
`GenericArray::clone_from_slice` panics when the slice length differs from
`N`; the panic is modelled by returning `none`.
-/

/-- Little-endian byte encoding of `n` in exactly `w` bytes
(the model of `to_le_bytes`). -/
def leBytes : Nat → Nat → List Nat
  | 0, _ => []
  | w + 1, n => (n % 256) :: leBytes w (n / 256)

/-- Little-endian decoding of a byte list (the model of `from_le_bytes`). -/
def fromLeBytes : List Nat → Nat
  | [] => 0
  | b :: rest => b + 256 * fromLeBytes rest

/-- Model of `GenericArray::clone_from_slice`: succeeds exactly when the
slice has the expected length, otherwise the Rust code panics. -/
def cloneFromSlice (n : Nat) (s : List Nat) : Option (List Nat) :=
  if s.length = n then some s else none

/-- `<u64 as FixedSizeTupleSerializer<U8>>::to_byte_array`:
`let d = self.to_le_bytes(); GenericArray::clone_from_slice(&d[0..8])`. -/
def u64ToByteArray (x : Nat) : Option (List Nat) :=
  let d := leBytes 8 x
  cloneFromSlice 8 (d.take 8)

/-- `<u64 as FixedSizeTupleSerializer<U8>>::from_byte_array`. -/
def u64FromByteArray (data : List Nat) : Nat :=
  fromLeBytes data

/-- `<u128 as FixedSizeTupleSerializer<U16>>::to_byte_array`:
`let d = self.to_le_bytes(); GenericArray::clone_from_slice(&d[0..8])`
where the target array has length 16 but the slice `&d[0..8]` has length 8. -/
def u128ToByteArray (x : Nat) : Option (List Nat) :=
  let d := leBytes 16 x
  cloneFromSlice 16 (d.take 8)

/-- `<u128 as FixedSizeTupleSerializer<U16>>::from_byte_array`. -/
def u128FromByteArray (data : List Nat) : Nat :=
  fromLeBytes data

/-- `<(u64, u128) as FixedSizeTupleSerializer<U24>>::to_byte_array`:
concatenates the 8 little-endian bytes of the first component and the 16
little-endian bytes of the second. -/
def pairToByteArray (x : Nat × Nat) : Option (List Nat) :=
  let a := leBytes 8 x.1
  let b := leBytes 16 x.2
  cloneFromSlice 24 (a ++ b)

/-- `<(u64, u128) as FixedSizeTupleSerializer<U24>>::from_byte_array`: reads
bytes `[0..8]` as a `u64` and `[8..24]` as a `u128`. -/
def pairFromByteArray (data : List Nat) : Nat × Nat :=
  (fromLeBytes (data.take 8), fromLeBytes ((data.drop 8).take 16))

end Ser

namespace BlockFile

/-!
## Model of `src/file.rs` (`TemporaryBlockFile`)

The memory mapped region is a byte list; block ids are byte offsets of block
headers, exactly as in the source.  The serde/bincode serializer used for the
block payload type `B` is an external collaborator of the crate (spec section
6) and is therefore a parameter: an encoding function together with its
decoder, subject to the round-trip law.  `serialized_size` is the length of
the encoding, matching bincode's contract.
-/

/-- External serde/bincode serializer for the block type `B`
(treated abstractly, as in section 6 of the specification). -/
structure Serializer (B : Type) where
  encode : B → List Nat
  decode : List Nat → Option B
  decode_encode : ∀ b, decode (encode b) = some b

/-- `PAGE_SIZE` from `src/lib.rs`. -/
def PAGE_SIZE : Nat := 4096

/-- `BlockHeader::size()`: two `u64` fields. -/
def headerSize : Nat := 16

/-- `page_aligned_capacity` from `src/file.rs`. -/
def pageAlignedCapacity (capacity : Nat) : Nat :=
  let numFullPages := capacity / PAGE_SIZE + (if capacity % PAGE_SIZE ≠ 0 then 1 else 0)
  numFullPages * PAGE_SIZE - headerSize

/-- `BlockHeader { capacity, used }`. -/
structure BlockHeader where
  capacity : Nat
  used : Nat
  deriving DecidableEq, Repr

/-- Write `data` into buffer `m` starting at byte offset `off`
(callers check bounds first, mirroring Rust slice indexing). -/
def writeBytes (m : List Nat) (off : Nat) (data : List Nat) : List Nat :=
  m.take off ++ data ++ m.drop (off + data.length)

/-- Read `len` bytes of buffer `m` starting at offset `off`. -/
def readBytes (m : List Nat) (off len : Nat) : List Nat :=
  (m.drop off).take len

/-- State of a `TemporaryBlockFile<B>`.  The LRU block cache
(`linked_hash_map::LinkedHashMap`) is an association list in insertion order,
oldest first; the relocation `HashMap` is an association list with
most-recent-insert first. -/
structure State (B : Type) where
  free_space_offset : Nat
  mmap : List Nat
  relocated_blocks : List (Nat × Nat)
  cache : List (Nat × B)
  block_cache_size : Nat
  deriving DecidableEq, Repr

/-- `HashMap::get` on the relocation table. -/
def lookupA (l : List (Nat × Nat)) (k : Nat) : Option Nat :=
  (l.find? (fun p => p.1 = k)).map (fun p => p.2)

/-- `HashMap::insert` (overwrites an existing binding). -/
def insertA (l : List (Nat × Nat)) (k v : Nat) : List (Nat × Nat) :=
  (k, v) :: l.filter (fun p => ¬ p.1 = k)

/-- `relocated_blocks.get(&block_id).unwrap_or(&block_id)`. -/
def resolve (s : State B) (blockId : Nat) : Nat :=
  (lookupA s.relocated_blocks blockId).getD blockId

/-- `LinkedHashMap` lookup on the cache. -/
def cacheLookup (c : List (Nat × B)) (k : Nat) : Option B :=
  (c.find? (fun p => p.1 = k)).map (fun p => p.2)

/-- `LinkedHashMap::insert`: a re-inserted key moves to the back
(most recently used). -/
def cacheInsert (c : List (Nat × B)) (k : Nat) (v : B) : List (Nat × B) :=
  c.filter (fun p => ¬ p.1 = k) ++ [(k, v)]

/-- `BlockHeader::read` at offset `block_id`
(Rust panics on an out-of-range slice; modelled as an error). -/
def blockHeader (s : State B) (blockId : Nat) : Except Error BlockHeader :=
  if blockId + headerSize ≤ s.mmap.length then
    Except.ok
      { capacity := Ser.fromLeBytes (readBytes s.mmap blockId 8)
        used := Ser.fromLeBytes (readBytes s.mmap (blockId + 8) 8) }
  else
    Except.error Error.sliceConversion

/-- `BlockHeader::write` at offset `block_id`; bounds are checked by the
callers' slice expressions. -/
def writeHeader (m : List Nat) (blockId : Nat) (h : BlockHeader) : List Nat :=
  writeBytes m blockId (Ser.leBytes 8 h.capacity ++ Ser.leBytes 8 h.used)

/-- `TemporaryBlockFile::with_capacity` (anonymous mappings are
zero-initialised). -/
def withCapacity (B : Type) (capacity blockCacheSize : Nat) : State B :=
  { free_space_offset := 0
    mmap := List.replicate (max capacity 1) 0
    relocated_blocks := []
    cache := []
    block_cache_size := blockCacheSize }

/-- `TemporaryBlockFile::grow`.  A new anonymous mapping that would not be
representable is refused by the OS; that allocation failure surfaces as the
`IO` error, with the old mapping left intact (spec section 4.1, Failures). -/
def grow (s : State B) (requestedSize : Nat) : Except Error (State B) :=
  if requestedSize ≤ s.mmap.length then
    Except.ok s
  else
    let newSize := max requestedSize (s.mmap.length * 2)
    if newSize < 2 ^ 64 then
      Except.ok { s with mmap := s.mmap ++ List.replicate (newSize - s.mmap.length) 0 }
    else
      Except.error Error.ioError

/-- `TemporaryBlockFile::allocate_block`. -/
def allocateBlock (s : State B) (capacity : Nat) : Except Error (Nat × State B) := do
  let newOffset := s.free_space_offset + headerSize + capacity
  let s ← grow s newOffset
  let result := s.free_space_offset
  let m := writeHeader s.mmap result { capacity := capacity, used := 0 }
  Except.ok (result, { s with mmap := m, free_space_offset := newOffset })

/-- `TemporaryBlockFile::serialized_size`. -/
def serializedSize (ser : Serializer B) (b : B) : Nat :=
  (ser.encode b).length

/-- `TemporaryBlockFile::can_update`. -/
def canUpdate (ser : Serializer B) (s : State B) (blockId : Nat) (b : B) :
    Except Error (Bool × Nat) := do
  let blockId := resolve s blockId
  let header ← blockHeader s blockId
  let newSize := serializedSize ser b
  Except.ok (decide (newSize ≤ header.capacity), newSize)

/-- `TemporaryBlockFile::read_block`. -/
def readBlock (ser : Serializer B) (s : State B) (blockId : Nat) : Except Error B := do
  let header ← blockHeader s blockId
  let blockStart := blockId + headerSize
  if blockStart + header.used ≤ s.mmap.length then
    match ser.decode (readBytes s.mmap blockStart header.used) with
    | some b => Except.ok b
    | none => Except.error Error.deserializeBlock
  else
    Except.error Error.sliceConversion

/-- `TemporaryBlockFile::get_cached_entry`.  The sequential model always
acquires the try-lock (spec section 5: readers and the writer never overlap in
time); a hit re-inserts the entry to mark it most recently used. -/
def getCachedEntry (s : State B) (blockId : Nat) : Option (B × State B) :=
  match cacheLookup s.cache blockId with
  | some b => some (b, { s with cache := cacheInsert s.cache blockId b })
  | none => none

/-- `TemporaryBlockFile::get` (returns the possibly cache-refreshed state as
well, because `get` updates recency through the interior mutex). -/
def get (ser : Serializer B) (s : State B) (blockId : Nat) :
    Except Error (B × State B) := do
  let blockId := resolve s blockId
  match getCachedEntry s blockId with
  | some (b, s') => Except.ok (b, s')
  | none => do
      let b ← readBlock ser s blockId
      Except.ok (b, s)

/-- `TemporaryBlockFile::put`. -/
def put (ser : Serializer B) (s : State B) (blockId : Nat) (b : B) :
    Except Error (State B) := do
  let relocatedBlockId := resolve s blockId
  let (updateFits, newUsedSize) ← canUpdate ser s relocatedBlockId b
  let (blockId', s) ←
    if updateFits then
      Except.ok (relocatedBlockId, s)
    else do
      let (newBlockId, s) ← allocateBlock s (pageAlignedCapacity (newUsedSize * 2))
      Except.ok (newBlockId,
        { s with relocated_blocks := insertA s.relocated_blocks blockId newBlockId })
  let header ← blockHeader s blockId'
  let header := { header with used := newUsedSize }
  let m := writeHeader s.mmap blockId' header
  let blockStart := blockId' + headerSize
  if newUsedSize ≤ header.capacity ∧ blockStart + header.capacity ≤ m.length then
    let m := writeBytes m blockStart (ser.encode b)
    let c := cacheInsert s.cache blockId' b
    let c := if s.block_cache_size < c.length then c.drop 1 else c
    Except.ok { s with mmap := m, cache := c }
  else
    Except.error Error.ioError

/-- Fold a sequence of `put` calls to the same block id. -/
def putAll (ser : Serializer B) (s : State B) (blockId : Nat) :
    List B → Except Error (State B)
  | [] => Except.ok s
  | b :: rest => do
      let s ← put ser s blockId b
      putAll ser s blockId rest

/-- Invariant of a block id in a `TemporaryBlockFile` state: the id resolves
in one step to a block whose header is in bounds and whose capacity region
lies below the free-space frontier; relocation keys all lie below the
frontier (so freshly allocated blocks are never already relocated). -/
def BlockInv (s : State B) (blockId : Nat) : Prop :=
  resolve s blockId + headerSize +
      (Ser.fromLeBytes (readBytes s.mmap (resolve s blockId) 8)) ≤ s.free_space_offset ∧
  s.free_space_offset ≤ s.mmap.length ∧
  s.mmap.length < 2 ^ 64 ∧
  lookupA s.relocated_blocks (resolve s blockId) = none ∧
  (∀ k v, lookupA s.relocated_blocks k = some v → k < s.free_space_offset)

end BlockFile

namespace VecBtree

/-!
## Model of `src/btree.rs` (`BtreeIndex` over `NodeBlock` vectors)

Nodes are the serde records `NodeBlock { id, keys: Vec<Key<K>>, child_nodes }`
stored in a `TemporaryBlockFile<NodeBlock<K>>`.  The two block files are
modelled at the level of their store contract — `allocate_block` returns a
fresh id, `put` overwrites, `get` retrieves the last `put` — which is the
round-trip behaviour of `TemporaryBlockFile` proved on the byte-level model in
the `BlockFile` namespace (serde/bincode serialization of the records is the
external collaborator of spec section 6).
-/

/-- `Key<K> { key, payload_id }` from `src/btree.rs`. -/
structure KeyE (K : Type) where
  key : K
  payloadId : Nat
  deriving DecidableEq, Repr

/-- `NodeBlock<K> { id, keys, child_nodes }` from `src/btree.rs`. -/
structure NodeBlock (K : Type) where
  id : Nat
  keys : List (KeyE K)
  childNodes : List Nat
  deriving DecidableEq, Repr

/-- `TemporaryBlockFile::allocate_block`: a fresh, not yet written block id. -/
def storeAllocate (l : List (Option A)) : Nat × List (Option A) :=
  (l.length, l ++ [none])

/-- `TemporaryBlockFile::put` on an allocated id. -/
def storePut (l : List (Option A)) (id : Nat) (a : A) : Except Error (List (Option A)) :=
  if id < l.length then Except.ok (l.set id (some a)) else Except.error Error.ioError

/-- `TemporaryBlockFile::get` on a written id. -/
def storeGet (l : List (Option A)) (id : Nat) : Except Error A :=
  match l[id]? with
  | some (some a) => Except.ok a
  | _ => Except.error Error.deserializeBlock

/-- `Vec::insert(index, element)`: shifts everything at or after `index`
to the right. -/
def insertAt (i : Nat) (a : A) : List A → List A :=
  fun l => l.take i ++ a :: l.drop i

/-- Result of `slice::binary_search_by`: `Ok(i)` (`found`) or `Err(i)`
(`notFound`, `i` the insertion position). -/
inductive BsResult where
  | found : Nat → BsResult
  | notFound : Nat → BsResult
  deriving DecidableEq, Repr

/-- `node.keys.binary_search_by(|e| e.key.cmp(key))`.  On the strictly
sorted key vectors this code maintains, `binary_search_by` returns `Ok` at
the unique matching index and `Err` at the insertion position; this function
computes exactly that contract. -/
def bsVec [LinearOrder K] (l : List (KeyE K)) (k : K) : BsResult :=
  go l 0
where
  go : List (KeyE K) → Nat → BsResult
    | [], i => BsResult.notFound i
    | e :: rest, i =>
      if e.key < k then go rest (i + 1)
      else if e.key = k then BsResult.found i
      else BsResult.notFound i

/-- `std::ops::Bound<K>`. -/
inductive RBound (K : Type) where
  | unbounded : RBound K
  | included : K → RBound K
  | excluded : K → RBound K
  deriving DecidableEq, Repr

/-- `StackEntry<K>` from `src/btree.rs`; `Rc<NodeBlock<K>>` snapshots are
immutable values. -/
inductive StackEntry (K : Type) where
  | child : NodeBlock K → Nat → StackEntry K
  | key : NodeBlock K → Nat → StackEntry K
  deriving DecidableEq, Repr

/-- `NodeBlock::is_leaf`. -/
def NodeBlock.is_leaf (n : NodeBlock K) : Bool :=
  n.childNodes.isEmpty

/-- `usize` subtraction by one: wraps in release builds
(debug builds panic on `0 - 1`). -/
def usizeSub1 (i : Nat) : Nat :=
  (i + (2 ^ 64 - 1)) % 2 ^ 64

/-- `find_first_candidate` from `src/btree.rs` (lines 27-103). -/
def findFirstCandidate [LinearOrder K] (node : NodeBlock K) (startBound : RBound K) :
    StackEntry K :=
  match startBound with
  | RBound.included key =>
    match bsVec node.keys key with
    | BsResult.found i => StackEntry.key node i
    | BsResult.notFound i =>
      if node.is_leaf then StackEntry.key node i else StackEntry.child node i
  | RBound.excluded key =>
    match bsVec node.keys key with
    | BsResult.found i =>
      if node.is_leaf then StackEntry.key node (i + 1) else StackEntry.child node (i + 1)
    | BsResult.notFound i => StackEntry.child node (usizeSub1 i)
  | RBound.unbounded =>
    if node.is_leaf then StackEntry.key node 0 else StackEntry.child node 0

/-- The `included` test of the `NodeBlock::find_range` loop. -/
def frIncluded [LinearOrder K] (endBound : RBound K) : StackEntry K → Bool
  | StackEntry.child parent idx => idx < parent.childNodes.length
  | StackEntry.key node idx =>
    match endBound with
    | RBound.included e =>
      decide (idx < node.keys.length) && (match node.keys[idx]? with
        | some entry => decide (entry.key ≤ e)
        | none => false)
    | RBound.excluded e =>
      decide (idx < node.keys.length) && (match node.keys[idx]? with
        | some entry => decide (entry.key < e)
        | none => false)
    | RBound.unbounded => decide (idx < node.keys.length)

/-- The `next_candidate` step of the `NodeBlock::find_range` loop. -/
def frNext (item : StackEntry K) : StackEntry K :=
  match item with
  | StackEntry.child parent idx => StackEntry.key parent idx
  | StackEntry.key node idx =>
    if node.is_leaf then StackEntry.key node (idx + 1)
    else StackEntry.child node (idx + 1)

/-- The `while let Some(item) = candidate` loop of `NodeBlock::find_range`.
The candidate index strictly advances, so the explicit fuel below covers
every run of the Rust loop. -/
def frLoop [LinearOrder K] (endBound : RBound K) : Nat → StackEntry K → List (StackEntry K)
  | 0, _ => []
  | fuel + 1, item =>
    if frIncluded endBound item then item :: frLoop endBound fuel (frNext item)
    else []

/-- `NodeBlock::find_range` from `src/btree.rs` (lines 117-171). -/
def findRange [LinearOrder K] (node : NodeBlock K) (startBound endBound : RBound K) :
    List (StackEntry K) :=
  frLoop endBound (2 * node.keys.length + 2 * node.childNodes.length + 4)
    (findFirstCandidate node startBound)

/-- `BtreeIndex<K, V>` from `src/btree.rs`. -/
structure Btree (K V : Type) where
  keys : List (Option (NodeBlock K))
  values : List (Option V)
  rootId : Nat
  order : Nat
  nrElements : Nat
  deriving DecidableEq, Repr

/-- `BtreeIndex::with_capacity` (the capacity hint only pre-sizes mappings). -/
def withCapacity (K V : Type) (order : Nat) : Except Error (Btree K V) :=
  if order < 2 then Except.error (Error.orderTooSmall order)
  else
    let keys₀ : List (Option (NodeBlock K)) := []
    let (rootId, keys₁) := storeAllocate keys₀
    let rootNode : NodeBlock K := { childNodes := [], keys := [], id := rootId }
    match storePut keys₁ rootId rootNode with
    | Except.ok keys₂ =>
      Except.ok { rootId := rootId, keys := keys₂, values := [], order := order,
                  nrElements := 0 }
    | Except.error e => Except.error e

/-- `BtreeIndex::search` (lines 342-357), with fuel for the recursion into
child node ids. -/
def search [LinearOrder K] (t : Btree K V) (node : NodeBlock K) (key : K) :
    Nat → Except Error (Option (NodeBlock K × Nat))
  | 0 => Except.error Error.ioError
  | fuel + 1 =>
    let i := (node.keys.takeWhile (fun e => e.key < key)).length
    match node.keys[i]? with
    | some e =>
      if e.key = key then Except.ok (some (node, i))
      else if node.is_leaf then Except.ok none
      else
        match node.childNodes[i]? with
        | some childId => do
            let child ← storeGet t.keys childId
            search t child key fuel
        | none => Except.error Error.sliceConversion
    | none =>
      if node.is_leaf then Except.ok none
      else
        match node.childNodes[i]? with
        | some childId => do
            let child ← storeGet t.keys childId
            search t child key fuel
        | none => Except.error Error.sliceConversion

/-- `BtreeIndex::get` (lines 268-276). -/
def getB [LinearOrder K] (t : Btree K V) (key : K) : Except Error (Option V) := do
  let rootNode ← storeGet t.keys t.rootId
  match ← search t rootNode key (t.keys.length + 1) with
  | some (node, i) =>
    match node.keys[i]? with
    | some e => do
        let v ← storeGet t.values e.payloadId
        Except.ok (some v)
    | none => Except.error Error.sliceConversion
  | none => Except.ok none

/-- `BtreeIndex::split_child` (lines 404-443).  Returns the updated index,
the updated parent (mutated through `&mut`), and the `(left, right)` pair. -/
def splitChild [LinearOrder K] (t : Btree K V) (parent : NodeBlock K) (i : Nat) :
    Except Error (Btree K V × NodeBlock K × NodeBlock K × NodeBlock K) := do
  let childId ←
    match parent.childNodes[i]? with
    | some c => Except.ok c
    | none => Except.error Error.sliceConversion
  let existingNode ← storeGet t.keys childId
  let (newNodeId, keys₁) := storeAllocate t.keys
  let newNodeKeys := existingNode.keys.drop t.order
  let existingKeys := existingNode.keys.take t.order
  let newNodeChildren :=
    if existingNode.is_leaf then [] else existingNode.childNodes.drop t.order
  let existingChildren :=
    if existingNode.is_leaf then existingNode.childNodes
    else existingNode.childNodes.take t.order
  let newNode : NodeBlock K :=
    { childNodes := newNodeChildren, keys := newNodeKeys, id := newNodeId }
  let splitKey ←
    match existingKeys.getLast? with
    | some k => Except.ok k
    | none => Except.error Error.emptyChildNodeInSplit
  let existingNode' : NodeBlock K :=
    { existingNode with keys := existingKeys.dropLast, childNodes := existingChildren }
  let parent' : NodeBlock K :=
    { parent with
        keys := insertAt i splitKey parent.keys
        childNodes := insertAt (i + 1) newNodeId parent.childNodes }
  let keys₂ ← storePut keys₁ newNode.id newNode
  let keys₃ ← storePut keys₂ parent'.id parent'
  let keys₄ ← storePut keys₃ existingNode'.id existingNode'
  Except.ok ({ t with keys := keys₄ }, parent', existingNode', newNode)

/-- `BtreeIndex::insert_nonfull` (lines 359-402), with fuel for the descent. -/
def insertNonfull [LinearOrder K] (t : Btree K V) (node : NodeBlock K) (key : K) (value : V) :
    Nat → Except Error (Btree K V)
  | 0 => Except.error Error.ioError
  | fuel + 1 =>
    match bsVec node.keys key with
    | BsResult.found i =>
      match node.keys[i]? with
      | some e => do
          let values' ← storePut t.values e.payloadId value
          Except.ok { t with values := values' }
      | none => Except.error Error.sliceConversion
    | BsResult.notFound i =>
      if node.is_leaf then do
        let (payloadId, values₁) := storeAllocate t.values
        let values₂ ← storePut values₁ payloadId value
        let node' := { node with keys := insertAt i { key := key, payloadId := payloadId } node.keys }
        let keys' ← storePut t.keys node'.id node'
        Except.ok { t with keys := keys', values := values₂, nrElements := t.nrElements + 1 }
      else do
        let childId ←
          match node.childNodes[i]? with
          | some c => Except.ok c
          | none => Except.error Error.sliceConversion
        let c ← storeGet t.keys childId
        if c.keys.length = 2 * t.order - 1 then do
          let (t₁, node', left, right) ← splitChild t node i
          let promoted ←
            match node'.keys[i]? with
            | some e => Except.ok e
            | none => Except.error Error.sliceConversion
          let c' := if promoted.key < key then right else left
          insertNonfull t₁ c' key value fuel
        else
          insertNonfull t c key value fuel

/-- `BtreeIndex::insert` (lines 287-308). -/
def insert [LinearOrder K] (t : Btree K V) (key : K) (value : V) :
    Except Error (Btree K V) := do
  let rootNode ← storeGet t.keys t.rootId
  if rootNode.keys.length = 2 * t.order - 1 then do
    let (newRootId, keys₁) := storeAllocate t.keys
    let newRoot : NodeBlock K := { id := newRootId, keys := [], childNodes := [rootNode.id] }
    let (t₁, newRoot', _, _) ← splitChild { t with keys := keys₁ } newRoot 0
    let t₂ ← insertNonfull t₁ newRoot' key value (t₁.keys.length + 1)
    Except.ok { t₂ with rootId := newRootId }
  else
    insertNonfull t rootNode key value (t.keys.length + 1)

/-- Fold a sequence of inserts. -/
def insertSeq [LinearOrder K] (t : Btree K V) : List (K × V) → Except Error (Btree K V)
  | [] => Except.ok t
  | (k, v) :: rest => do
      let t ← insert t k v
      insertSeq t rest

/-- One step of `<Range as Iterator>::next` plus the surrounding drain: pops
the stack, expands `Child` entries via `find_range` on the fetched child,
yields `Key` entries.  Fuel covers the nesting.

The source keeps the pending entries in a `Vec` whose *end* is the top
(`Vec::pop`), reversing `find_range` results before extending so that pops
come out smallest first.  This model represents the stack as a list whose
*head* is the top, so the two reversals cancel: the initial stack is
`find_range root` itself and a `Child` expansion prepends `find_range c`. -/
def rangeDrain [LinearOrder K] (t : Btree K V) (startBound endBound : RBound K) :
    List (StackEntry K) → Nat → Except Error (List (K × V))
  | _, 0 => Except.error Error.ioError
  | [], _ + 1 => Except.ok []
  | e :: rest, fuel + 1 =>
    match e with
    | StackEntry.child parent idx =>
      match parent.childNodes[idx]? with
      | some childId => do
          let c ← storeGet t.keys childId
          let newElements := findRange c startBound endBound
          rangeDrain t startBound endBound (newElements ++ rest) fuel
      | none => Except.error Error.sliceConversion
    | StackEntry.key node idx =>
      match node.keys[idx]? with
      | some entry => do
          let v ← storeGet t.values entry.payloadId
          let tail ← rangeDrain t startBound endBound rest fuel
          Except.ok ((entry.key, v) :: tail)
      | none => Except.error Error.sliceConversion

/-- `BtreeIndex::range` (lines 318-340) followed by collecting the iterator
into a list (head-of-list as stack top; see `rangeDrain`). -/
def rangeList [LinearOrder K] (t : Btree K V) (startBound endBound : RBound K)
    (fuel : Nat) : Except Error (List (K × V)) := do
  let root ← storeGet t.keys t.rootId
  rangeDrain t startBound endBound (findRange root startBound endBound) fuel

/-- The index built by inserting `(1,10) (2,20) (3,30) (4,40) (5,50)` and then
re-inserting key `4` with value `60`, at order 2. -/
def c1State : Except Error (Btree Nat Nat) := do
  let t ← withCapacity Nat Nat 2
  insertSeq t [(1, 10), (2, 20), (3, 30), (4, 40), (5, 50), (4, 60)]

/-- The index built by inserting `(2,20) (4,40) (8,80)` at order 2: a single
leaf root holding keys `2, 4, 8`. -/
def c2State : Except Error (Btree Nat Nat) := do
  let t ← withCapacity Nat Nat 2
  insertSeq t [(2, 20), (4, 40), (8, 80)]

end VecBtree

namespace VKNode

/-!
## Model of `src/btree/node.rs` (`NodeFile<K>`, variable-key mode)

A node page is a fixed-layout record; the three slot tables (`keys`,
`payloads`, `child_nodes`) of 64-bit little-endian slots are modelled as
functions from slot index to `Nat`, and the page header fields directly.  Key
slots hold block ids into the companion key tuple store
(`TemporaryBlockFile<K>`), which is modelled by its store contract — proved
byte-exactly in the `BlockFile` namespace — as an append-only list:
`allocate_block` returns a fresh id, `put` writes it, `get` reads it back.
-/

/-- `MAX_NUMBER_KEYS` from `src/btree/node.rs`. -/
def MAX_NUMBER_KEYS : Nat := 169

/-- `MAX_NUMBER_CHILD_NODES` from `src/btree/node.rs`. -/
def MAX_NUMBER_CHILD_NODES : Nat := MAX_NUMBER_KEYS + 1

/-- One node page (`define_layout!(node, ...)`): header fields plus the three
slot tables. -/
structure Node where
  id : Nat
  numKeys : Nat
  isLeaf : Bool
  keys : Nat → Nat
  payloads : Nat → Nat
  children : Nat → Nat

/-- `NodeFile<K>`: the node page region plus the key tuple store. -/
structure NodeFile (K : Type) where
  nodes : List Node
  keyStore : List (Option K)

/-- `TemporaryBlockFile::allocate_block` on the key store (fresh id). -/
def kAllocate (st : List (Option K)) : Nat × List (Option K) :=
  (st.length, st ++ [none])

/-- `TemporaryBlockFile::put` on the key store. -/
def kPut (st : List (Option K)) (id : Nat) (k : K) : Except Error (List (Option K)) :=
  if id < st.length then Except.ok (st.set id (some k)) else Except.error Error.ioError

/-- `TemporaryBlockFile::get` on the key store. -/
def kGet (st : List (Option K)) (id : Nat) : Except Error K :=
  match st[id]? with
  | some (some k) => Except.ok k
  | _ => Except.error Error.deserializeBlock

/-- `NodeFile::get` (the typed view of page `node_id`). -/
def getNodeView (nf : NodeFile K) (id : Nat) : Except Error Node :=
  match nf.nodes[id]? with
  | some nd => Except.ok nd
  | none => Except.error Error.sliceConversion

/-- Write back a node view (mutation through `get_mut`). -/
def setNodeView (nf : NodeFile K) (id : Nat) (nd : Node) : NodeFile K :=
  { nf with nodes := nf.nodes.set id nd }

/-- `NodeFile::allocate_new_node`: fresh zeroed page with `num_keys = 0`,
`is_leaf = 1`, `id` written. -/
def allocate_new_node (nf : NodeFile K) : Nat × NodeFile K :=
  let id := nf.nodes.length
  (id, { nf with nodes := nf.nodes ++
      [{ id := id, numKeys := 0, isLeaf := true, keys := fun _ => 0,
         payloads := fun _ => 0, children := fun _ => 0 }] })

/-- `NodeFile::number_of_keys`. -/
def number_of_keys (nf : NodeFile K) (id : Nat) : Except Error Nat :=
  (getNodeView nf id).map (fun nd => nd.numKeys)

/-- `NodeFile::is_leaf`. -/
def is_leaf (nf : NodeFile K) (id : Nat) : Except Error Bool :=
  (getNodeView nf id).map (fun nd => nd.isLeaf)

/-- `NodeFile::number_of_children`. -/
def number_of_children (nf : NodeFile K) (id : Nat) : Except Error Nat := do
  if ← is_leaf nf id then Except.ok 0
  else Except.ok ((← number_of_keys nf id) + 1)

/-- `NodeFile::get_key` (indirect: slot holds a key-store block id). -/
def get_key (nf : NodeFile K) (nodeId i : Nat) : Except Error K := do
  let view ← getNodeView nf nodeId
  if i < view.numKeys ∧ i < MAX_NUMBER_KEYS then
    kGet nf.keyStore (view.keys i)
  else
    Except.error (Error.keyIndexOutOfBounds i view.numKeys)

/-- `NodeFile::set_key`: allocates a fresh key block, writes the key, stores
the block id in the slot; appending at `i = n` increments `num_keys`. -/
def set_key (nf : NodeFile K) (nodeId i : Nat) (key : K) : Except Error (NodeFile K) := do
  let view ← getNodeView nf nodeId
  let n := view.numKeys
  if i ≤ n ∧ i < MAX_NUMBER_KEYS then do
    let (keyId, st₁) := kAllocate nf.keyStore
    let st₂ ← kPut st₁ keyId key
    let view₂ := { view with keys := fun j => if j = i then keyId else view.keys j }
    let view₃ := if i = n then { view₂ with numKeys := n + 1 } else view₂
    Except.ok { nodes := nf.nodes.set nodeId view₃, keyStore := st₂ }
  else
    Except.error (Error.keyIndexOutOfBounds i n)

/-- `NodeFile::get_payload`. -/
def get_payload (nf : NodeFile K) (nodeId i : Nat) : Except Error Nat := do
  let view ← getNodeView nf nodeId
  if i < view.numKeys ∧ i < MAX_NUMBER_KEYS then Except.ok (view.payloads i)
  else Except.error (Error.keyIndexOutOfBounds i view.numKeys)

/-- `NodeFile::set_payload`. -/
def set_payload (nf : NodeFile K) (nodeId i : Nat) (value : Nat) :
    Except Error (NodeFile K) := do
  let view ← getNodeView nf nodeId
  if i < view.numKeys ∧ i < MAX_NUMBER_KEYS then
    Except.ok (setNodeView nf nodeId
      { view with payloads := fun j => if j = i then value else view.payloads j })
  else Except.error (Error.keyIndexOutOfBounds i view.numKeys)

/-- `NodeFile::get_child_node`. -/
def get_child_node (nf : NodeFile K) (nodeId i : Nat) : Except Error Nat := do
  let view ← getNodeView nf nodeId
  if view.isLeaf = false ∧ i < view.numKeys + 1 ∧ i < MAX_NUMBER_CHILD_NODES then
    Except.ok (view.children i)
  else Except.error (Error.keyIndexOutOfBounds i view.numKeys)

/-- `NodeFile::set_child_node` (writing a child clears the leaf flag). -/
def set_child_node (nf : NodeFile K) (nodeId i : Nat) (value : Nat) :
    Except Error (NodeFile K) := do
  let view ← getNodeView nf nodeId
  let n := if view.isLeaf then 0 else view.numKeys + 1
  if i ≤ n ∧ i < MAX_NUMBER_CHILD_NODES then
    Except.ok (setNodeView nf nodeId
      { view with
          children := fun j => if j = i then value else view.children j
          isLeaf := false })
  else Except.error (Error.keyIndexOutOfBounds i view.numKeys)

/-- Write `num_keys` directly through a mutable view (used by the splits). -/
def setNumKeys (nf : NodeFile K) (nodeId n : Nat) : Except Error (NodeFile K) := do
  let view ← getNodeView nf nodeId
  Except.ok (setNodeView nf nodeId { view with numKeys := n })

/-- Monadic fold over a list of slot indices (the `for` loops of the source,
whose iteration order is the list order). -/
def foldIdx (f : NodeFile K → Nat → Except Error (NodeFile K)) :
    List Nat → NodeFile K → Except Error (NodeFile K)
  | [], nf => Except.ok nf
  | i :: rest, nf => do foldIdx f rest (← f nf i)

/-- The key/payload copy loop of `NodeFile::split_off`
(`for i in split_at..n`). -/
def copyKP (srcId tgtId a : Nat) (nf : NodeFile K) (idxs : List Nat) :
    Except Error (NodeFile K) :=
  foldIdx (fun nf i => do
    let k ← get_key nf srcId i
    let nf ← set_key nf tgtId (i - a) k
    let p ← get_payload nf srcId i
    set_payload nf tgtId (i - a) p) idxs nf

/-- The child copy loop of `NodeFile::split_off`
(`for i in split_at..number_of_children`). -/
def copyC (srcId tgtId a : Nat) (nf : NodeFile K) (idxs : List Nat) :
    Except Error (NodeFile K) :=
  foldIdx (fun nf i => do
    let c ← get_child_node nf srcId i
    set_child_node nf tgtId (i - a) c) idxs nf

/-- `NodeFile::split_off` (lines 465-504). -/
def split_off (nf : NodeFile K) (sourceNodeId splitAt : Nat) :
    Except Error (Nat × NodeFile K) := do
  let n ← number_of_keys nf sourceNodeId
  if splitAt < n then do
    let (targetNodeId, nf) := allocate_new_node nf
    let nf ← copyKP sourceNodeId targetNodeId splitAt nf (List.range' splitAt (n - splitAt))
    let leaf ← is_leaf nf sourceNodeId
    let nf ←
      if leaf then Except.ok nf
      else do
        let nc ← number_of_children nf sourceNodeId
        copyC sourceNodeId targetNodeId splitAt nf (List.range' splitAt (nc - splitAt))
    let nf ← setNumKeys nf sourceNodeId splitAt
    Except.ok (targetNodeId, nf)
  else
    Except.error (Error.keyIndexOutOfBounds splitAt n)

/-- `NodeFile::split_child` (lines 398-440). -/
def split_child (nf : NodeFile K) (parentNodeId childIdx splitAt : Nat) :
    Except Error ((Nat × Nat) × NodeFile K) := do
  let existingNode ← get_child_node nf parentNodeId childIdx
  let (newNodeId, nf) ← split_off nf existingNode splitAt
  let splitKey ← get_key nf existingNode (splitAt - 1)
  let splitPayload ← get_payload nf existingNode (splitAt - 1)
  let nf ← setNumKeys nf existingNode (splitAt - 1)
  let nKeys ← number_of_keys nf parentNodeId
  let nf ← foldIdx (fun nf i => do
      let k ← get_key nf parentNodeId (i - 1)
      let nf ← set_key nf parentNodeId i k
      let p ← get_payload nf parentNodeId (i - 1)
      set_payload nf parentNodeId i p)
    (List.range' (childIdx + 1) (nKeys - childIdx)).reverse nf
  let nChildren ← number_of_children nf parentNodeId
  let nf ← foldIdx (fun nf i => do
      let c ← get_child_node nf parentNodeId (i - 1)
      set_child_node nf parentNodeId i c)
    (List.range' (childIdx + 1) (nChildren - childIdx)).reverse nf
  let nf ← set_key nf parentNodeId childIdx splitKey
  let nf ← set_payload nf parentNodeId childIdx splitPayload
  let nf ← set_child_node nf parentNodeId (childIdx + 1) newNodeId
  Except.ok ((existingNode, newNodeId), nf)

end VKNode

/-!
# Inline-key index (`src/btree/inline_keys.rs`)

`InlineKeyBtreeIndex` keeps its keys directly in the 64-bit node slots.  Its
node module (`src/btree/inline_keys/node.rs`, declared by `mod node`) is not
part of the sources; the node layer below is therefore
Modelled from the spec: section 4.4 describes the node page store (slot
layout, bound checks against `num_keys`/`MAX`, `set_child_node` clearing the
leaf flag, binary search contract and the split operations), and the sibling
variable-key implementation `src/btree/node.rs` exhibits the same operation
set.  Keys are 64-bit integers (`KeyType` is implemented for the integer
primitives only), modelled as `Nat`.  The index layer (`Index`,
`with_capacity`, `get`, `insert`, `insert_nonfull`, `search`, `swap`) is
translated from `src/btree/inline_keys.rs` itself.  The value tuple file
(`Box<dyn TupleFile<V>>`) is
Modelled from the spec: sections 4.2/4.3 give its contract (allocate a
block, put a value, get it back); it is modelled as a growable list of
optional values.
-/

namespace Inline

/-- Modelled from the spec: `MAX` per-node key-slot constant (section 4.4). -/
def MAX_NUMBER_KEYS : Nat := 169

/-- Modelled from the spec: a node page with inline key slots. -/
structure Node where
  id : Nat
  numKeys : Nat
  isLeaf : Bool
  keys : Nat → Nat
  payloads : Nat → Nat
  children : Nat → Nat

/-- Modelled from the spec: `binary_search` result (section 4.4). -/
inductive SearchResult where
  | Found : Nat → SearchResult
  | NotFound : Nat → SearchResult

/-- Value tuple file: `allocate_block` (spec sections 4.2/4.3). -/
def vAllocate (st : List (Option V)) : Nat × List (Option V) :=
  (st.length, st ++ [none])

/-- Value tuple file: `put`. -/
def vPut (st : List (Option V)) (id : Nat) (v : V) : Except Error (List (Option V)) :=
  if id < st.length then Except.ok (st.set id (some v)) else Except.error Error.ioError

/-- Value tuple file: `get_owned`. -/
def vGet (st : List (Option V)) (id : Nat) : Except Error V :=
  match st[id]? with
  | some (some v) => Except.ok v
  | _ => Except.error Error.deserializeBlock

/-- Node page lookup (`NodeFile::get`). -/
def getNode (ns : List Node) (id : Nat) : Except Error Node :=
  match ns[id]? with
  | some nd => Except.ok nd
  | none => Except.error Error.sliceConversion

/-- `allocate_new_node`: fresh zeroed page, `num_keys = 0`, `is_leaf = 1`. -/
def allocate_new_node (ns : List Node) : Nat × List Node :=
  let id := ns.length
  (id, ns ++
    [{ id := id, numKeys := 0, isLeaf := true, keys := fun _ => 0,
       payloads := fun _ => 0, children := fun _ => 0 }])

/-- `number_of_keys`. -/
def number_of_keys (ns : List Node) (id : Nat) : Except Error Nat :=
  (getNode ns id).map (fun nd => nd.numKeys)

/-- `is_leaf`. -/
def is_leaf (ns : List Node) (id : Nat) : Except Error Bool :=
  (getNode ns id).map (fun nd => nd.isLeaf)

/-- `number_of_children`. -/
def number_of_children (ns : List Node) (id : Nat) : Except Error Nat := do
  if ← is_leaf ns id then Except.ok 0
  else Except.ok ((← number_of_keys ns id) + 1)

/-- `get_key` (inline mode: the slot is the key). -/
def get_key (ns : List Node) (nodeId i : Nat) : Except Error Nat := do
  let nd ← getNode ns nodeId
  if i < nd.numKeys ∧ i < MAX_NUMBER_KEYS then Except.ok (nd.keys i)
  else Except.error (Error.keyIndexOutOfBounds i nd.numKeys)

/-- `set_key` (inline mode): writing at slot `num_keys` appends a key. -/
def set_key (ns : List Node) (nodeId i key : Nat) : Except Error (List Node) := do
  let nd ← getNode ns nodeId
  let n := nd.numKeys
  if i ≤ n ∧ i < MAX_NUMBER_KEYS then
    let nd₂ := { nd with keys := fun j => if j = i then key else nd.keys j }
    let nd₃ := if i = n then { nd₂ with numKeys := n + 1 } else nd₂
    Except.ok (ns.set nodeId nd₃)
  else
    Except.error (Error.keyIndexOutOfBounds i n)

/-- `get_payload`. -/
def get_payload (ns : List Node) (nodeId i : Nat) : Except Error Nat := do
  let nd ← getNode ns nodeId
  if i < nd.numKeys ∧ i < MAX_NUMBER_KEYS then Except.ok (nd.payloads i)
  else Except.error (Error.keyIndexOutOfBounds i nd.numKeys)

/-- `set_payload`. -/
def set_payload (ns : List Node) (nodeId i value : Nat) : Except Error (List Node) := do
  let nd ← getNode ns nodeId
  if i < nd.numKeys ∧ i < MAX_NUMBER_KEYS then
    Except.ok (ns.set nodeId
      { nd with payloads := fun j => if j = i then value else nd.payloads j })
  else Except.error (Error.keyIndexOutOfBounds i nd.numKeys)

/-- `get_child_node`. -/
def get_child_node (ns : List Node) (nodeId i : Nat) : Except Error Nat := do
  let nd ← getNode ns nodeId
  if nd.isLeaf = false ∧ i < nd.numKeys + 1 ∧ i < MAX_NUMBER_KEYS + 1 then
    Except.ok (nd.children i)
  else Except.error (Error.keyIndexOutOfBounds i nd.numKeys)

/-- `set_child_node` (writing a child clears the leaf flag). -/
def set_child_node (ns : List Node) (nodeId i value : Nat) :
    Except Error (List Node) := do
  let nd ← getNode ns nodeId
  let n := if nd.isLeaf then 0 else nd.numKeys + 1
  if i ≤ n ∧ i < MAX_NUMBER_KEYS + 1 then
    Except.ok (ns.set nodeId
      { nd with
          children := fun j => if j = i then value else nd.children j
          isLeaf := false })
  else Except.error (Error.keyIndexOutOfBounds i nd.numKeys)

/-- Write `num_keys` directly (the `num_keys_mut().write(..)` of the source). -/
def setNumKeys (ns : List Node) (nodeId n : Nat) : Except Error (List Node) := do
  let nd ← getNode ns nodeId
  Except.ok (ns.set nodeId { nd with numKeys := n })

/-- The insertion position of `key` among the node keys: the number of keys
smaller than `key`.  For a sorted node this is the classic binary-search
lower bound. -/
def lowerBound (nd : Node) (key : Nat) : Nat :=
  (List.range nd.numKeys).countP (fun j => decide (nd.keys j < key))

/-- Modelled from the spec: `binary_search(id, key)` returns `Found(i)` when
slot `i` holds `key` and otherwise `NotFound(i)` with the insertion
position (section 4.4); realised by the executable lower-bound count. -/
def binary_search (ns : List Node) (nodeId key : Nat) :
    Except Error SearchResult := do
  let nd ← getNode ns nodeId
  let i := lowerBound nd key
  if i < nd.numKeys ∧ nd.keys i = key then Except.ok (SearchResult.Found i)
  else Except.ok (SearchResult.NotFound i)

/-- Monadic fold over slot indices (the `for` loops of the source). -/
def foldIdx (f : List Node → Nat → Except Error (List Node)) :
    List Nat → List Node → Except Error (List Node)
  | [], ns => Except.ok ns
  | i :: rest, ns => do foldIdx f rest (← f ns i)

/-- Key/payload copy loop of `split_off` (`for i in split_at..n`). -/
def copyKP (srcId tgtId a : Nat) (ns : List Node) (idxs : List Nat) :
    Except Error (List Node) :=
  foldIdx (fun ns i => do
    let k ← get_key ns srcId i
    let ns ← set_key ns tgtId (i - a) k
    let p ← get_payload ns srcId i
    set_payload ns tgtId (i - a) p) idxs ns

/-- Child copy loop of `split_off`. -/
def copyC (srcId tgtId a : Nat) (ns : List Node) (idxs : List Nat) :
    Except Error (List Node) :=
  foldIdx (fun ns i => do
    let c ← get_child_node ns srcId i
    set_child_node ns tgtId (i - a) c) idxs ns

/-- The descending make-space loop shared by `split_child` and the leaf case
of `insert_nonfull` (`for i in ((idx+1)..=n).rev()`). -/
def shiftKP (nodeId : Nat) (ns : List Node) (idxs : List Nat) :
    Except Error (List Node) :=
  foldIdx (fun ns i => do
    let k ← get_key ns nodeId (i - 1)
    let ns ← set_key ns nodeId i k
    let p ← get_payload ns nodeId (i - 1)
    set_payload ns nodeId i p) idxs ns

/-- The descending child shift loop of `split_child`. -/
def shiftC (nodeId : Nat) (ns : List Node) (idxs : List Nat) :
    Except Error (List Node) :=
  foldIdx (fun ns i => do
    let c ← get_child_node ns nodeId (i - 1)
    set_child_node ns nodeId i c) idxs ns

/-- Modelled from the spec: `split_off` (section 4.4, mirroring
`src/btree/node.rs:465-504`). -/
def split_off (ns : List Node) (sourceNodeId splitAt : Nat) :
    Except Error (Nat × List Node) := do
  let n ← number_of_keys ns sourceNodeId
  if splitAt < n then do
    let (targetNodeId, ns) := allocate_new_node ns
    let ns ← copyKP sourceNodeId targetNodeId splitAt ns
      (List.range' splitAt (n - splitAt))
    let leaf ← is_leaf ns sourceNodeId
    let ns ←
      if leaf then Except.ok ns
      else do
        let nc ← number_of_children ns sourceNodeId
        copyC sourceNodeId targetNodeId splitAt ns
          (List.range' splitAt (nc - splitAt))
    let ns ← setNumKeys ns sourceNodeId splitAt
    Except.ok (targetNodeId, ns)
  else
    Except.error (Error.keyIndexOutOfBounds splitAt n)

/-- Modelled from the spec: `split_child(parent, child_idx, t)` (section 4.4,
mirroring `src/btree/node.rs:398-440`). -/
def split_child (ns : List Node) (parentNodeId childIdx splitAt : Nat) :
    Except Error ((Nat × Nat) × List Node) := do
  let existingNode ← get_child_node ns parentNodeId childIdx
  let (newNodeId, ns) ← split_off ns existingNode splitAt
  let splitKey ← get_key ns existingNode (splitAt - 1)
  let splitPayload ← get_payload ns existingNode (splitAt - 1)
  let ns ← setNumKeys ns existingNode (splitAt - 1)
  let nKeys ← number_of_keys ns parentNodeId
  let ns ← shiftKP parentNodeId ns
    (List.range' (childIdx + 1) (nKeys - childIdx)).reverse
  let nChildren ← number_of_children ns parentNodeId
  let ns ← shiftC parentNodeId ns
    (List.range' (childIdx + 1) (nChildren - childIdx)).reverse
  let ns ← set_key ns parentNodeId childIdx splitKey
  let ns ← set_payload ns parentNodeId childIdx splitPayload
  let ns ← set_child_node ns parentNodeId (childIdx + 1) newNodeId
  Except.ok ((existingNode, newNodeId), ns)

/-- Modelled from the spec: `split_root_node(old_root, t)` (section 4.4,
mirroring `src/btree/node.rs:442-464`). -/
def split_root_node (ns : List Node) (oldRootId splitAt : Nat) :
    Except Error (Nat × List Node) := do
  let (newRootId, ns) := allocate_new_node ns
  let (newNodeId, ns) ← split_off ns oldRootId splitAt
  let splitKey ← get_key ns oldRootId (splitAt - 1)
  let splitPayload ← get_payload ns oldRootId (splitAt - 1)
  let ns ← setNumKeys ns oldRootId (splitAt - 1)
  let ns ← set_key ns newRootId 0 splitKey
  let ns ← set_payload ns newRootId 0 splitPayload
  let ns ← set_child_node ns newRootId 0 oldRootId
  let ns ← set_child_node ns newRootId 1 newNodeId
  Except.ok (newRootId, ns)

/-- `InlineKeyBtreeIndex<K, V>` state (`src/btree/inline_keys.rs:56-66`). -/
structure Index (V : Type) where
  nodes : List Node
  values : List (Option V)
  root_id : Nat
  last_inserted_node_id : Nat
  order : Nat
  nr_elements : Nat

/-- `InlineKeyBtreeIndex::with_capacity` (lines 81-121): order bounds are
checked first, then an empty root is allocated. -/
def with_capacity (V : Type) (order : Nat) : Except Error (Index V) :=
  if order < 2 then Except.error (Error.orderTooSmall order)
  else if order > MAX_NUMBER_KEYS / 2 then Except.error (Error.orderTooLarge order)
  else
    let (rootId, ns) := allocate_new_node []
    Except.ok
      { nodes := ns, values := [], root_id := rootId,
        last_inserted_node_id := rootId, order := order, nr_elements := 0 }

/-- `InlineKeyBtreeIndex::search` (lines 284-296), with explicit fuel for the
recursion through child links. -/
def search (fuel : Nat) (ns : List Node) (nodeId key : Nat) :
    Except Error (Option (Nat × Nat)) :=
  match fuel with
  | 0 => Except.error Error.ioError
  | fuel + 1 => do
    match ← binary_search ns nodeId key with
    | SearchResult.Found i => Except.ok (some (nodeId, i))
    | SearchResult.NotFound i => do
      if ← is_leaf ns nodeId then Except.ok none
      else do
        let childId ← get_child_node ns nodeId i
        search fuel ns childId key

/-- `InlineKeyBtreeIndex::get` (lines 123-132). -/
def get (ix : Index V) (key : Nat) : Except Error (Option V) := do
  match ← search (ix.nodes.length + 1) ix.nodes ix.root_id key with
  | some (node, i) => do
    let payloadId ← get_payload ix.nodes node i
    let v ← vGet ix.values payloadId
    Except.ok (some v)
  | none => Except.ok none

/-- `InlineKeyBtreeIndex::insert_nonfull` (lines 298-363), with explicit
fuel for the descent. -/
def insert_nonfull (fuel : Nat) (ix : Index V) (nodeId key : Nat) (value : V) :
    Except Error (Option V × Index V) :=
  match fuel with
  | 0 => Except.error Error.ioError
  | fuel + 1 => do
    match ← binary_search ix.nodes nodeId key with
    | SearchResult.Found i => do
      let payloadId ← get_payload ix.nodes nodeId i
      let prev ← vGet ix.values payloadId
      let values ← vPut ix.values payloadId value
      Except.ok (some prev,
        { ix with values := values, last_inserted_node_id := nodeId })
    | SearchResult.NotFound i => do
      if ← is_leaf ix.nodes nodeId then do
        let (payloadId, values) := vAllocate ix.values
        let values ← vPut values payloadId value
        let n ← number_of_keys ix.nodes nodeId
        let ns ← shiftKP nodeId ix.nodes (List.range' (i + 1) (n - i)).reverse
        let ns ← set_key ns nodeId i key
        let ns ← set_payload ns nodeId i payloadId
        Except.ok (none,
          { nodes := ns, values := values, root_id := ix.root_id,
            last_inserted_node_id := nodeId, order := ix.order,
            nr_elements := ix.nr_elements + 1 })
      else do
        let childId ← get_child_node ix.nodes nodeId i
        let childN ← number_of_keys ix.nodes childId
        if childN = 2 * ix.order - 1 then do
          let ((left, right), ns) ← split_child ix.nodes nodeId i ix.order
          let nodeKey ← get_key ns nodeId i
          if key = nodeKey then do
            let payloadId ← get_payload ns nodeId i
            let prev ← vGet ix.values payloadId
            let values ← vPut ix.values payloadId value
            Except.ok (some prev,
              { ix with nodes := ns, values := values,
                        last_inserted_node_id := nodeId })
          else if key > nodeKey then
            insert_nonfull fuel { ix with nodes := ns } right key value
          else
            insert_nonfull fuel { ix with nodes := ns } left key value
        else
          insert_nonfull fuel ix childId key value

/-- The root path of `insert` (lines 160-172): split a full root first. -/
def insertRootPath (ix : Index V) (key : Nat) (value : V) :
    Except Error (Option V × Index V) :=
  let rootN := match number_of_keys ix.nodes ix.root_id with
    | Except.ok n => n
    | Except.error _ => 0
  if rootN = 2 * ix.order - 1 then do
    let (newRootId, ns) ← split_root_node ix.nodes ix.root_id ix.order
    let (existing, ix') ← insert_nonfull (ns.length + 1)
      { ix with nodes := ns } newRootId key value
    Except.ok (existing, { ix' with root_id := newRootId })
  else
    insert_nonfull (ix.nodes.length + 1) ix ix.root_id key value

/-- `InlineKeyBtreeIndex::insert` (lines 138-173): last-inserted fast path,
then the root path. -/
def insert (ix : Index V) (key : Nat) (value : V) :
    Except Error (Option V × Index V) :=
  let lastN := match number_of_keys ix.nodes ix.last_inserted_node_id with
    | Except.ok n => n
    | Except.error _ => 0
  if 0 < lastN then do
    let start ← get_key ix.nodes ix.last_inserted_node_id 0
    let stop ← get_key ix.nodes ix.last_inserted_node_id (lastN - 1)
    if start ≤ key ∧ key ≤ stop ∧ lastN < 2 * ix.order - 1 then
      insert_nonfull (ix.nodes.length + 1) ix ix.last_inserted_node_id key value
    else
      insertRootPath ix key value
  else
    insertRootPath ix key value

/-- `InlineKeyBtreeIndex::swap` (lines 266-281), in state-passing style: the
returned index is the receiver state at the point the source returns, so an
early error return leaves the original state visible. -/
def swap (ix : Index V) (a b : Nat) : Index V × Option Error :=
  match search (ix.nodes.length + 1) ix.nodes ix.root_id a with
  | Except.error e => (ix, some e)
  | Except.ok none => (ix, some Error.nonExistingKey)
  | Except.ok (some (aNode, aPos)) =>
    match search (ix.nodes.length + 1) ix.nodes ix.root_id b with
    | Except.error e => (ix, some e)
    | Except.ok none => (ix, some Error.nonExistingKey)
    | Except.ok (some (bNode, bPos)) =>
      match get_payload ix.nodes aNode aPos with
      | Except.error e => (ix, some e)
      | Except.ok aPayload =>
        match get_payload ix.nodes bNode bPos with
        | Except.error e => (ix, some e)
        | Except.ok bPayload =>
          match set_payload ix.nodes aNode aPos bPayload with
          | Except.error e => (ix, some e)
          | Except.ok ns₁ =>
            match set_payload ns₁ bNode bPos aPayload with
            | Except.error e => ({ ix with nodes := ns₁ }, some e)
            | Except.ok ns₂ => ({ ix with nodes := ns₂ }, none)

end Inline

/-- A one-entry inline index (root leaf holding key 1 with payload block 0)
used to witness the failed-swap theorem. -/
def c9ix : Inline.Index Nat :=
  { nodes := [{ id := 0, numKeys := 1, isLeaf := true, keys := fun _ => 1,
                payloads := fun _ => 0, children := fun _ => 0 }]
    values := [some 10]
    root_id := 0
    last_inserted_node_id := 0
    order := 2
    nr_elements := 1 }


/-- The order-2 `BtreeIndex` holding `(1,10) (2,20) (3,30) (4,40) (5,50)`:
root node 1 holds the single key 2 with children `[0, 2]`, and child 2 is
full with the three keys `3, 4, 5` (its median is 4). -/
def c34pre : Except Error (VecBtree.Btree Nat Nat) := do
  let t ← VecBtree.withCapacity Nat Nat 2
  VecBtree.insertSeq t [(1, 10), (2, 20), (3, 30), (4, 40), (5, 50)]

/-- `c34pre` after re-inserting key 4 with the new value 60. -/
def c34post : Except Error (VecBtree.Btree Nat Nat) :=
  c34pre.bind (fun t => VecBtree.insert t 4 60)

/-- The inline-key index built by the same insert sequence as `c34pre`. -/
def inl34pre : Except Error (Inline.Index Nat) := do
  let ix ← Inline.with_capacity Nat 2
  let (_, ix) ← Inline.insert ix 1 10
  let (_, ix) ← Inline.insert ix 2 20
  let (_, ix) ← Inline.insert ix 3 30
  let (_, ix) ← Inline.insert ix 4 40
  let (_, ix) ← Inline.insert ix 5 50
  Except.ok ix

/-!
# Theorems

One theorem per claim of the specification audit, preceded by helper
definitions and lemmas.  Claim theorems state the audited property; each
theorem with a hypothesis has a closed witness instantiating it.
-/

/-- Concrete two-byte region used to witness the `grow` specification. -/
def c8wState : BlockFile.State Unit :=
  { free_space_offset := 0, mmap := [7, 7], relocated_blocks := [], cache := [],
    block_cache_size := 0 }

/-- The result of growing `c8wState` to five bytes. -/
def c8wGrown : BlockFile.State Unit :=
  { free_space_offset := 0, mmap := [7, 7, 0, 0, 0], relocated_blocks := [], cache := [],
    block_cache_size := 0 }

/-- A tiny concrete serializer (one byte per boolean), used to witness the
tuple-store round-trip theorem. -/
def boolSer : BlockFile.Serializer Bool where
  encode b := [if b then 1 else 0]
  decode l :=
    match l with
    | [1] => some true
    | [0] => some false
    | _ => none
  decode_encode := by intro b; cases b <;> rfl

/-- A concrete `TemporaryBlockFile<Bool>` state holding one allocated block of
capacity 16 at id 0 (64-byte region, cache size 1). -/
def c6wBlock : BlockFile.State Bool :=
  { free_space_offset := 32
    mmap := BlockFile.writeHeader (List.replicate 64 0) 0 { capacity := 16, used := 0 }
    relocated_blocks := []
    cache := []
    block_cache_size := 1 }

/-- The state of `c6wBlock` after `put(0, false); put(0, true)`. -/
def c6wFinal : BlockFile.State Bool :=
  { free_space_offset := 32
    mmap := [16] ++ List.replicate 7 0 ++ [1] ++ List.replicate 7 0 ++ [1] ++
      List.replicate 47 0
    relocated_blocks := []
    cache := [(0, true)]
    block_cache_size := 1 }


/-- Concrete parent node used to witness the `split_child` specification. -/
def c7P : VKNode.Node :=
  { id := 0, numKeys := 1, isLeaf := false, keys := fun _ => 0,
    payloads := fun _ => 100, children := fun j => j + 1 }

/-- Concrete full child node (3 = 2*2-1 keys) for the `split_child` witness. -/
def c7S : VKNode.Node :=
  { id := 1, numKeys := 3, isLeaf := true, keys := fun j => j + 1,
    payloads := fun j => 10 * (j + 1), children := fun _ => 0 }

/-- Concrete node file: parent 0, full child 1, key blocks 0..3. -/
def c7nf : VKNode.NodeFile Nat :=
  { nodes := [c7P, c7S], keyStore := [some 50, some 11, some 22, some 33] }

/-- C8: `grow(min_bytes)` is a no-op when `min_bytes ≤ len()`; otherwise
(when the new anonymous mapping can be allocated) the new mapping length is
exactly `max(min_bytes, 2 * old_len)` and the first `old_len` bytes are
byte-identical to the old content. -/
theorem grow_spec (B : Type) (s : BlockFile.State B) (minBytes : Nat) :
    (minBytes ≤ s.mmap.length → BlockFile.grow s minBytes = Except.ok s) ∧
    (s.mmap.length < minBytes →
      ∀ s', BlockFile.grow s minBytes = Except.ok s' →
        s'.mmap.length = max minBytes (2 * s.mmap.length) ∧
        s'.mmap.take s.mmap.length = s.mmap) := by
  constructor
  · intro h
    simp [BlockFile.grow, h]
  · intro h s' h'
    have hnot : ¬ minBytes ≤ s.mmap.length := by omega
    simp only [BlockFile.grow, if_neg hnot] at h'
    split at h'
    · injection h' with h''
      subst h''
      constructor
      · simp only [List.length_append, List.length_replicate]
        omega
      · simp [List.take_left]
    · cases h'

/-- Witness for `grow_spec`: both branches evaluated on the concrete
two-byte region `c8wState`. -/
theorem grow_spec_witness :
    BlockFile.grow c8wState 1 = Except.ok c8wState ∧
    (c8wGrown.mmap.length = max 5 (2 * c8wState.mmap.length) ∧
      c8wGrown.mmap.take c8wState.mmap.length = c8wState.mmap) :=
  ⟨(grow_spec Unit c8wState 1).1 (by decide),
    (grow_spec Unit c8wState 5).2 (by decide) c8wGrown (by decide)⟩

/-- C1: refuted on `src/btree.rs`.  After inserting `(1,10) (2,20) (3,30)
(4,40) (5,50)` at order 2 and then re-inserting key 4 with value 60, `get(4)`
still returns the old value 40 (the most recent insert stored 60), `len()`
reports 6 although only 5 distinct keys were ever inserted, and the full
scan shows key 4 twice.  The split in `insert_nonfull` promotes the median
key 4 into the parent but the code only compares `key > promoted`, never
equality, so it descends into the left child and inserts a duplicate. -/
theorem btree_insert_duplicate_median :
    VecBtree.c1State.bind (fun t => VecBtree.getB t 4) = Except.ok (some 40) ∧
    VecBtree.c1State.map (fun t => t.nrElements) = Except.ok 6 ∧
    VecBtree.c1State.bind
        (fun t => VecBtree.rangeList t VecBtree.RBound.unbounded VecBtree.RBound.unbounded 100) =
      Except.ok [(1, 10), (2, 20), (3, 30), (4, 60), (4, 40), (5, 50)] := by
  decide

/-- C2: refuted on `src/btree.rs`.  On the index holding `(2,20) (4,40)
(8,80)` in a single leaf root, the range with excluded start bound 5 and no
end bound yields nothing, although the entry `(8, 80)` lies inside the
range: `find_first_candidate`'s `Excluded`/`Err` arm returns a `Child`
entry at index `i - 1` even for leaves, which have no children, so the scan
stops immediately. -/
theorem range_excluded_start_bound_miss :
    VecBtree.c2State.bind
        (fun t =>
          VecBtree.rangeList t (VecBtree.RBound.excluded 5) VecBtree.RBound.unbounded 100) =
      Except.ok [] ∧
    VecBtree.c2State.bind (fun t => VecBtree.getB t 8) = Except.ok (some 80) := by
  decide

/-- C10: refuted on `src/serializer.rs`.  The `u128` implementation of
`FixedSizeTupleSerializer<U16>` builds its 16-byte array from the slice
`&d[0..8]` of only 8 bytes, so `GenericArray::clone_from_slice` panics for
every input (modelled as `none`); the `u64` and `(u64, u128)`
implementations round-trip correctly. -/
theorem fixed_size_serializer_u128_panics :
    Ser.u128ToByteArray 1 = none ∧
    (Ser.u64ToByteArray 5).map Ser.u64FromByteArray = some 5 ∧
    (Ser.pairToByteArray (5, 2 ^ 100)).map Ser.pairFromByteArray = some (5, 2 ^ 100) := by
  decide

namespace BlockFile

theorem length_writeBytes (m data : List Nat) (off : Nat)
    (h : off + data.length ≤ m.length) :
    (writeBytes m off data).length = m.length := by
  simp only [writeBytes, List.length_append, List.length_take, List.length_drop]
  omega

theorem drop_append_add (l₁ l₂ : List α) (n : Nat) :
    (l₁ ++ l₂).drop (l₁.length + n) = l₂.drop n := by
  rw [← List.drop_drop, List.drop_left]

theorem readBytes_writeBytes_within (m data : List Nat) (off j k : Nat)
    (hm : off + data.length ≤ m.length) (hjk : j + k ≤ data.length) :
    readBytes (writeBytes m off data) (off + j) k = (data.drop j).take k := by
  have h1 : (m.take off).length = off := by
    simp only [List.length_take]
    omega
  have h2 : ∀ l₂ : List Nat, (m.take off ++ l₂).drop (off + j) = l₂.drop j := by
    intro l₂
    have h3 := drop_append_add (m.take off) l₂ j
    rwa [h1] at h3
  unfold readBytes writeBytes
  rw [List.append_assoc, h2, List.drop_append_of_le_length (by omega),
    List.take_append_of_le_length (by simp only [List.length_drop]; omega)]

theorem readBytes_writeBytes_right (m data : List Nat) (off off2 k : Nat)
    (h : off + data.length ≤ off2) (hoff : off + data.length ≤ m.length) :
    readBytes (writeBytes m off data) off2 k = readBytes m off2 k := by
  have h1 : (m.take off ++ data).length = off + data.length := by
    simp only [List.length_append, List.length_take]
    omega
  have h2 := drop_append_add (m.take off ++ data) (m.drop (off + data.length))
    (off2 - (off + data.length))
  rw [h1] at h2
  have h3 : off + data.length + (off2 - (off + data.length)) = off2 := by omega
  rw [h3] at h2
  unfold readBytes writeBytes
  rw [h2, List.drop_drop]
  have h4 : off + data.length + (off2 - (off + data.length)) = off2 := by omega
  rw [h4]

theorem readBytes_writeBytes_left (m data : List Nat) (off off2 k : Nat)
    (h : off2 + k ≤ off) (hoff : off ≤ m.length) :
    readBytes (writeBytes m off data) off2 k = readBytes m off2 k := by
  have h1 : (m.take off).length = off := by
    simp only [List.length_take]
    omega
  unfold readBytes writeBytes
  rw [List.append_assoc, List.drop_append_of_le_length (by omega),
    List.take_append_of_le_length (by simp only [List.length_drop, h1]; omega),
    List.drop_take, List.take_take]
  congr 1
  omega

theorem readBytes_append_left (m r : List Nat) (off k : Nat) (h : off + k ≤ m.length) :
    readBytes (m ++ r) off k = readBytes m off k := by
  unfold readBytes
  rw [List.drop_append_of_le_length (by omega),
    List.take_append_of_le_length (by simp only [List.length_drop]; omega)]

theorem leBytes_length (w n : Nat) : (Ser.leBytes w n).length = w := by
  induction w generalizing n with
  | zero => rfl
  | succ w ih => simp [Ser.leBytes, ih]

theorem fromLeBytes_leBytes (w n : Nat) :
    Ser.fromLeBytes (Ser.leBytes w n) = n % 256 ^ w := by
  induction w generalizing n with
  | zero => simp [Ser.leBytes, Ser.fromLeBytes, Nat.mod_one]
  | succ w ih =>
    simp only [Ser.leBytes, Ser.fromLeBytes, ih]
    rw [pow_succ, mul_comm (256 ^ w) 256, Nat.mod_mul]

theorem headerBytes_length (h : BlockHeader) :
    (Ser.leBytes 8 h.capacity ++ Ser.leBytes 8 h.used).length = 16 := by
  simp [leBytes_length]

theorem length_writeHeader (m : List Nat) (id : Nat) (h : BlockHeader)
    (hb : id + 16 ≤ m.length) :
    (writeHeader m id h).length = m.length := by
  unfold writeHeader
  rw [length_writeBytes]
  rw [headerBytes_length]
  omega

theorem readBytes_writeHeader_cap (m : List Nat) (id : Nat) (h : BlockHeader)
    (hb : id + 16 ≤ m.length) :
    readBytes (writeHeader m id h) id 8 = Ser.leBytes 8 h.capacity := by
  unfold writeHeader
  have h0 := readBytes_writeBytes_within m
    (Ser.leBytes 8 h.capacity ++ Ser.leBytes 8 h.used) id 0 8
    (by rw [headerBytes_length]; omega) (by rw [headerBytes_length]; omega)
  simp only [Nat.add_zero, List.drop_zero] at h0
  rw [h0, List.take_append_of_le_length (by simp [leBytes_length])]
  exact List.take_of_length_le (by simp [leBytes_length])

theorem readBytes_writeHeader_used (m : List Nat) (id : Nat) (h : BlockHeader)
    (hb : id + 16 ≤ m.length) :
    readBytes (writeHeader m id h) (id + 8) 8 = Ser.leBytes 8 h.used := by
  unfold writeHeader
  have h0 := readBytes_writeBytes_within m
    (Ser.leBytes 8 h.capacity ++ Ser.leBytes 8 h.used) id 8 8
    (by rw [headerBytes_length]; omega) (by rw [headerBytes_length])
  rw [h0]
  have hd := List.drop_left (Ser.leBytes 8 h.capacity) (Ser.leBytes 8 h.used)
  rw [leBytes_length] at hd
  rw [hd]
  exact List.take_of_length_le (by simp [leBytes_length])

theorem readBytes_writeHeader_outside (m : List Nat) (id off k : Nat) (h : BlockHeader)
    (hb : id + 16 ≤ m.length) (hout : id + 16 ≤ off) :
    readBytes (writeHeader m id h) off k = readBytes m off k := by
  unfold writeHeader
  exact readBytes_writeBytes_right m _ id off k
    (by rw [headerBytes_length]; omega) (by rw [headerBytes_length]; omega)

end BlockFile

namespace BlockFile

theorem find?_filter_none (c : List (Nat × B)) (k : Nat) :
    List.find? (fun p => p.1 = k) (c.filter (fun p => ¬ p.1 = k)) = none := by
  rw [List.find?_eq_none]
  intro x hx
  have := (List.mem_filter.mp hx).2
  simpa using this

theorem cacheLookup_insert (c : List (Nat × B)) (k : Nat) (v : B) :
    cacheLookup (cacheInsert c k v) k = some v := by
  unfold cacheLookup cacheInsert
  rw [List.find?_append, find?_filter_none]
  simp

theorem cacheLookup_after_evict (c : List (Nat × B)) (k : Nat) (v : B) :
    cacheLookup ((cacheInsert c k v).drop 1) k = some v ∨
      (cacheInsert c k v).drop 1 = [] := by
  unfold cacheInsert
  cases hF : c.filter (fun p => ¬ p.1 = k) with
  | nil => right; simp
  | cons f F' =>
    left
    have hsub : ∀ x ∈ F', ¬ x.1 = k := by
      intro x hx
      have hmem : x ∈ c.filter (fun p => ¬ p.1 = k) := by
        rw [hF]; exact List.mem_cons_of_mem _ hx
      have := (List.mem_filter.mp hmem).2
      simpa using this
    unfold cacheLookup
    simp only [List.cons_append, List.drop_succ_cons, List.drop_zero]
    rw [List.find?_append, List.find?_eq_none.mpr (by intro x hx; simpa using hsub x hx)]
    simp

/-- The cache state after a `put` either still holds the inserted entry or is
empty (the freshly inserted entry was itself evicted, which happens only with
cache size 0). -/
theorem cacheLookup_put (c : List (Nat × B)) (k : Nat) (v : B) (bcs : Nat) :
    cacheLookup
        (if bcs < (cacheInsert c k v).length then (cacheInsert c k v).drop 1
          else cacheInsert c k v) k = some v ∨
      (if bcs < (cacheInsert c k v).length then (cacheInsert c k v).drop 1
        else cacheInsert c k v) = [] := by
  split
  · exact cacheLookup_after_evict c k v
  · left; exact cacheLookup_insert c k v

/-- `size ≤ page_aligned_capacity(2 * size)`: a relocated block always has
room for the value that triggered the relocation. -/
theorem le_pageAlignedCapacity_double (size : Nat) :
    size ≤ pageAlignedCapacity (size * 2) := by
  unfold pageAlignedCapacity PAGE_SIZE headerSize
  have h := Nat.div_add_mod (size * 2) 4096
  have h2 : size * 2 % 4096 < 4096 := Nat.mod_lt _ (by omega)
  rcases Nat.eq_zero_or_pos size with hz | hp
  · subst hz; simp
  · by_cases hm : size * 2 % 4096 = 0
    · simp only [hm, ne_eq, not_true_eq_false, if_false]
      omega
    · simp only [ne_eq, hm, not_false_eq_true, if_true]
      omega

end BlockFile

namespace BlockFile

theorem lookupA_insertA_self (l : List (Nat × Nat)) (k v : Nat) :
    lookupA (insertA l k v) k = some v := by
  simp [lookupA, insertA]

theorem lookupA_insertA_ne (l : List (Nat × Nat)) (k v k' : Nat) (h : k' ≠ k)
    (hnone : lookupA l k' = none) : lookupA (insertA l k v) k' = none := by
  unfold lookupA insertA
  unfold lookupA at hnone
  have h1 : List.find? (fun p => p.1 = k') l = none := by
    cases hf : List.find? (fun p => p.1 = k') l with
    | none => rfl
    | some x => rw [hf] at hnone; simp at hnone
  rw [List.find?_cons_of_neg _ (by simpa using Ne.symm h)]
  have h2 : List.find? (fun p => p.1 = k') (l.filter (fun p => ¬ p.1 = k)) = none := by
    rw [List.find?_eq_none]
    intro x hx
    have hxl := List.mem_filter.mp hx
    have := List.find?_eq_none.mp h1 x hxl.1
    simpa using this
  rw [h2]
  rfl

theorem lookupA_insertA_cases (l : List (Nat × Nat)) (k v k' w : Nat)
    (h : lookupA (insertA l k v) k' = some w) :
    k' = k ∨ ∃ w', lookupA l k' = some w' := by
  unfold lookupA insertA at h
  by_cases hk : k' = k
  · left; exact hk
  · right
    rw [List.find?_cons_of_neg _ (by simpa using fun he => hk he.symm)] at h
    cases hf : List.find? (fun p => p.1 = k') (l.filter (fun p => ¬ p.1 = k)) with
    | none => rw [hf] at h; simp at h
    | some x =>
      have hmem := List.mem_filter.mp (List.mem_of_find?_eq_some hf)
      have hx1 : x.1 = k' := by simpa using List.find?_some hf
      cases hl : List.find? (fun p => p.1 = k') l with
      | none =>
        have := List.find?_eq_none.mp hl x hmem.1
        simp [hx1] at this
      | some y => exact ⟨y.2, by unfold lookupA; rw [hl]; simp⟩

theorem grow_ok_spec (s s₁ : State B) (req : Nat) (h : grow s req = Except.ok s₁)
    (hlen : s.mmap.length < 2 ^ 64) :
    req ≤ s₁.mmap.length ∧ s.mmap.length ≤ s₁.mmap.length ∧ s₁.mmap.length < 2 ^ 64 ∧
    s₁.free_space_offset = s.free_space_offset ∧
    s₁.relocated_blocks = s.relocated_blocks ∧
    s₁.cache = s.cache ∧ s₁.block_cache_size = s.block_cache_size ∧
    (∀ off k, off + k ≤ s.mmap.length → readBytes s₁.mmap off k = readBytes s.mmap off k) := by
  simp only [grow] at h
  split at h
  · injection h with h'
    subst h'
    refine ⟨by omega, le_refl _, hlen, rfl, rfl, rfl, rfl, fun off k _ => rfl⟩
  · split at h
    · injection h with h'
      subst h'
      refine ⟨?_, ?_, ?_, rfl, rfl, rfl, rfl, ?_⟩
      · simp only [List.length_append, List.length_replicate]
        omega
      · simp only [List.length_append, List.length_replicate]
        omega
      · simp only [List.length_append, List.length_replicate]
        omega
      · intro off k hk
        exact readBytes_append_left _ _ _ _ hk
    · cases h

theorem allocateBlock_ok_spec (s : State B) (cap n : Nat) (s₁ : State B)
    (h : allocateBlock s cap = Except.ok (n, s₁))
    (hfree : s.free_space_offset ≤ s.mmap.length) (hlen : s.mmap.length < 2 ^ 64) :
    n = s.free_space_offset ∧
    s₁.free_space_offset = s.free_space_offset + headerSize + cap ∧
    s₁.relocated_blocks = s.relocated_blocks ∧
    s₁.cache = s.cache ∧
    s₁.block_cache_size = s.block_cache_size ∧
    s₁.free_space_offset ≤ s₁.mmap.length ∧
    s₁.mmap.length < 2 ^ 64 ∧
    readBytes s₁.mmap n 8 = Ser.leBytes 8 cap ∧
    readBytes s₁.mmap (n + 8) 8 = Ser.leBytes 8 0 ∧
    (∀ off k, off + k ≤ s.free_space_offset → readBytes s₁.mmap off k = readBytes s.mmap off k) := by
  simp only [allocateBlock] at h
  cases hg : grow s (s.free_space_offset + headerSize + cap) with
  | error e => rw [hg] at h; cases h
  | ok sg =>
    rw [hg] at h
    simp only [bind, Except.bind, Except.ok.injEq, Prod.mk.injEq] at h
    obtain ⟨hn, hs₁⟩ := h
    obtain ⟨hreq, hmono, hlen', hfree', hrel', hcache', hbcs', hreads⟩ :=
      grow_ok_spec s sg _ hg hlen
    subst hn hs₁
    have hhb : sg.free_space_offset + 16 ≤ sg.mmap.length := by
      rw [hfree']; unfold headerSize at hreq; omega
    have hwlen : (writeHeader sg.mmap sg.free_space_offset
        { capacity := cap, used := 0 }).length = sg.mmap.length :=
      length_writeHeader _ _ _ hhb
    refine ⟨by rw [hfree'], by simp [hfree'], by simp [hrel'], by simp [hcache'],
      by simp [hbcs'], ?_, ?_, ?_, ?_, ?_⟩
    · simp only [hwlen]
      exact hreq
    · simpa [hwlen] using hlen'
    · simpa using readBytes_writeHeader_cap sg.mmap sg.free_space_offset
        { capacity := cap, used := 0 } hhb
    · simpa using readBytes_writeHeader_used sg.mmap sg.free_space_offset
        { capacity := cap, used := 0 } hhb
    · intro off k hk
      have h1 : readBytes (writeHeader sg.mmap sg.free_space_offset
          { capacity := cap, used := 0 }) off k = readBytes sg.mmap off k := by
        unfold writeHeader
        exact readBytes_writeBytes_left _ _ _ _ _ (by omega) (by omega)
      simpa using h1.trans (hreads off k (by omega))

theorem header_data_write_read (m : List Nat) (w C size : Nat) (data : List Nat)
    (hsz : data.length = size) (hle : size ≤ C) (hbound : w + headerSize + C ≤ m.length) :
    (writeBytes (writeHeader m w { capacity := C, used := size }) (w + headerSize)
        data).length = m.length ∧
    readBytes (writeBytes (writeHeader m w { capacity := C, used := size })
        (w + headerSize) data) w 8 = Ser.leBytes 8 C ∧
    readBytes (writeBytes (writeHeader m w { capacity := C, used := size })
        (w + headerSize) data) (w + 8) 8 = Ser.leBytes 8 size ∧
    readBytes (writeBytes (writeHeader m w { capacity := C, used := size })
        (w + headerSize) data) (w + headerSize) size = data ∧
    (∀ off k, off + k ≤ w →
      readBytes (writeBytes (writeHeader m w { capacity := C, used := size })
        (w + headerSize) data) off k = readBytes m off k) := by
  unfold headerSize at hbound ⊢
  have hhb : w + 16 ≤ m.length := by omega
  have hm₁len : (writeHeader m w { capacity := C, used := size }).length = m.length :=
    length_writeHeader _ _ _ hhb
  have hdata : w + 16 + data.length ≤
      (writeHeader m w { capacity := C, used := size }).length := by
    rw [hm₁len]; omega
  constructor
  · rw [length_writeBytes _ _ _ hdata, hm₁len]
  constructor
  · rw [readBytes_writeBytes_left _ _ _ _ _ (by omega) (by omega)]
    exact readBytes_writeHeader_cap m w _ hhb
  constructor
  · rw [readBytes_writeBytes_left _ _ _ _ _ (by omega) (by omega)]
    exact readBytes_writeHeader_used m w _ hhb
  constructor
  · have h0 := readBytes_writeBytes_within
      (writeHeader m w { capacity := C, used := size }) data (w + 16) 0 size
      hdata (by omega)
    simp only [Nat.add_zero, List.drop_zero] at h0
    rw [h0]
    exact List.take_of_length_le (by omega)
  · intro off k hk
    rw [readBytes_writeBytes_left _ _ _ _ _ (by omega) (by omega)]
    unfold writeHeader
    exact readBytes_writeBytes_left _ _ _ _ _ (by omega) (by omega)

end BlockFile

namespace BlockFile

theorem resolve_idem (s : State B) (id : Nat) (h4 : lookupA s.relocated_blocks (resolve s id) = none) :
    resolve s (resolve s id) = resolve s id := by
  show (lookupA s.relocated_blocks (resolve s id)).getD (resolve s id) = resolve s id
  rw [h4]
  rfl

theorem canUpdate_eval (ser : Serializer B) (s : State B) (id : Nat) (b : B)
    (hInv : BlockInv s id) :
    canUpdate ser s (resolve s id) b =
      Except.ok (decide (serializedSize ser b ≤
        Ser.fromLeBytes (readBytes s.mmap (resolve s id) 8)), serializedSize ser b) := by
  obtain ⟨h1, h2, h3, h4, h5⟩ := hInv
  simp only [canUpdate, resolve_idem s id h4]
  unfold blockHeader
  rw [if_pos (show resolve s id + headerSize ≤ s.mmap.length by
    unfold headerSize at h1 ⊢; omega)]
  simp [bind, Except.bind]

end BlockFile

namespace BlockFile

theorem post_write_state (ser : Serializer B) (free : Nat) (m : List Nat)
    (rel : List (Nat × Nat)) (c0 : List (Nat × B)) (bcs : Nat) (id w C : Nat) (b : B)
    (hres : (lookupA rel id).getD id = w)
    (hflat : lookupA rel w = none)
    (hkeys : ∀ k v, lookupA rel k = some v → k < free)
    (hfit : serializedSize ser b ≤ C)
    (hbound : w + headerSize + C ≤ free)
    (hfree : free ≤ m.length)
    (hlen : m.length < 2 ^ 64) :
    BlockInv (B := B)
      { free_space_offset := free
        mmap := writeBytes (writeHeader m w { capacity := C, used := serializedSize ser b })
          (w + headerSize) (ser.encode b)
        relocated_blocks := rel
        cache := if bcs < (cacheInsert c0 w b).length then (cacheInsert c0 w b).drop 1
          else cacheInsert c0 w b
        block_cache_size := bcs } id ∧
    ∃ s2, get ser
      { free_space_offset := free
        mmap := writeBytes (writeHeader m w { capacity := C, used := serializedSize ser b })
          (w + headerSize) (ser.encode b)
        relocated_blocks := rel
        cache := if bcs < (cacheInsert c0 w b).length then (cacheInsert c0 w b).drop 1
          else cacheInsert c0 w b
        block_cache_size := bcs } id = Except.ok (b, s2) := by
  have h256 : (256 : Nat) ^ 8 = 2 ^ 64 := by norm_num
  unfold headerSize at hbound
  have hC64 : C < 2 ^ 64 := by omega
  have hsz64 : serializedSize ser b < 2 ^ 64 := by omega
  obtain ⟨hwlen, hwcap, hwused, hwdata, hwbelow⟩ :=
    header_data_write_read m w C (serializedSize ser b) (ser.encode b) rfl hfit
      (by unfold headerSize; omega)
  have hcapval : Ser.fromLeBytes (readBytes
      (writeBytes (writeHeader m w { capacity := C, used := serializedSize ser b })
        (w + headerSize) (ser.encode b)) w 8) = C := by
    rw [hwcap, fromLeBytes_leBytes, h256, Nat.mod_eq_of_lt hC64]
  have husedval : Ser.fromLeBytes (readBytes
      (writeBytes (writeHeader m w { capacity := C, used := serializedSize ser b })
        (w + headerSize) (ser.encode b)) (w + 8) 8) = serializedSize ser b := by
    rw [hwused, fromLeBytes_leBytes, h256, Nat.mod_eq_of_lt hsz64]
  constructor
  · refine ⟨?_, ?_, ?_, ?_, ?_⟩
    · simp only [resolve]
      rw [hres, hcapval]
      unfold headerSize
      omega
    · simp only [hwlen]
      exact hfree
    · simp only [hwlen]
      exact hlen
    · simp only [resolve]
      rw [hres]
      exact hflat
    · exact hkeys
  · rcases cacheLookup_put c0 w b bcs with hc | hc
    · simp only [get, getCachedEntry, resolve]
      rw [hres, hc]
      exact ⟨_, rfl⟩
    · simp only [get, getCachedEntry, resolve]
      rw [hres, hc]
      simp only [cacheLookup, List.find?, Option.map_none]
      unfold readBlock
      unfold blockHeader
      rw [if_pos (show w + headerSize ≤ (writeBytes (writeHeader m w
          { capacity := C, used := serializedSize ser b }) (w + headerSize)
          (ser.encode b)).length by rw [hwlen]; unfold headerSize; omega)]
      simp only [bind, Except.bind, husedval, hcapval]
      rw [if_pos (show w + headerSize + serializedSize ser b ≤ (writeBytes (writeHeader m w
          { capacity := C, used := serializedSize ser b }) (w + headerSize)
          (ser.encode b)).length by rw [hwlen]; unfold headerSize; omega)]
      rw [hwdata, ser.decode_encode b]
      exact ⟨_, rfl⟩

theorem id_lt_free (s : State B) (id : Nat)
    (h1 : resolve s id + headerSize +
      Ser.fromLeBytes (readBytes s.mmap (resolve s id) 8) ≤ s.free_space_offset)
    (h5 : ∀ k v, lookupA s.relocated_blocks k = some v → k < s.free_space_offset) :
    id < s.free_space_offset := by
  unfold resolve at h1
  cases hl : lookupA s.relocated_blocks id with
  | none => rw [hl] at h1; unfold headerSize at h1; simp at h1; omega
  | some r => exact h5 id r hl

theorem put_ok_spec (ser : Serializer B) (s : State B) (id : Nat) (b : B) (s' : State B)
    (hInv : BlockInv s id) (hput : put ser s id b = Except.ok s') :
    BlockInv s' id ∧ ∃ s2, get ser s' id = Except.ok (b, s2) := by
  obtain ⟨h1, h2, h3, h4, h5⟩ := hInv
  have hCU := canUpdate_eval ser s id b ⟨h1, h2, h3, h4, h5⟩
  simp only [put] at hput
  rw [hCU] at hput
  simp only [bind, Except.bind] at hput
  by_cases hfit : serializedSize ser b ≤ Ser.fromLeBytes (readBytes s.mmap (resolve s id) 8)
  · rw [if_pos (by simp [hfit])] at hput
    have hr16 : resolve s id + headerSize ≤ s.mmap.length := by
      unfold headerSize at h1 ⊢
      omega
    have hBH : blockHeader s (resolve s id) = Except.ok
        { capacity := Ser.fromLeBytes (readBytes s.mmap (resolve s id) 8)
          used := Ser.fromLeBytes (readBytes s.mmap (resolve s id + 8) 8) } := by
      unfold blockHeader
      rw [if_pos hr16]
    rw [hBH] at hput
    simp only [] at hput
    rw [if_pos (show serializedSize ser b ≤ _ ∧ _ from ⟨hfit, by
      rw [length_writeHeader _ _ _ hr16]
      unfold headerSize at h1 ⊢
      omega⟩)] at hput
    injection hput with hs'
    subst hs'
    exact post_write_state ser s.free_space_offset s.mmap s.relocated_blocks s.cache
      s.block_cache_size id (resolve s id)
      (Ser.fromLeBytes (readBytes s.mmap (resolve s id) 8)) b rfl h4 h5 hfit h1 h2 h3
  · rw [if_neg (by simp [hfit])] at hput
    cases hA : allocateBlock s (pageAlignedCapacity (serializedSize ser b * 2)) with
    | error e => rw [hA] at hput; cases hput
    | ok p =>
      obtain ⟨n, s₁⟩ := p
      rw [hA] at hput
      simp only [] at hput
      obtain ⟨hn, hfree₁, hrel₁, hcache₁, hbcs₁, hfs₁, hlen₁, hhc, hhu, hreads₁⟩ :=
        allocateBlock_ok_spec s _ n s₁ hA h2 h3
      have hcap64 : pageAlignedCapacity (serializedSize ser b * 2) < 2 ^ 64 := by
        unfold headerSize at hfree₁
        omega
      have hn16 : n + headerSize ≤ s₁.mmap.length := by
        unfold headerSize at hfree₁ ⊢
        omega
      have hBH2 : blockHeader { s₁ with relocated_blocks := insertA s₁.relocated_blocks id n } n =
          Except.ok
            { capacity := Ser.fromLeBytes (readBytes s₁.mmap n 8)
              used := Ser.fromLeBytes (readBytes s₁.mmap (n + 8) 8) } := by
        unfold blockHeader
        rw [if_pos hn16]
      rw [hBH2] at hput
      simp only [] at hput
      have h256 : (256 : Nat) ^ 8 = 2 ^ 64 := by norm_num
      have hcapval : Ser.fromLeBytes (readBytes s₁.mmap n 8) =
          pageAlignedCapacity (serializedSize ser b * 2) := by
        rw [hhc, fromLeBytes_leBytes, h256, Nat.mod_eq_of_lt hcap64]
      have hfitn : serializedSize ser b ≤ Ser.fromLeBytes (readBytes s₁.mmap n 8) := by
        rw [hcapval]
        exact le_pageAlignedCapacity_double _
      rw [if_pos (show serializedSize ser b ≤ _ ∧ _ from ⟨hfitn, by
        rw [length_writeHeader _ _ _ hn16]
        rw [hcapval]
        unfold headerSize at hfree₁ ⊢
        omega⟩)] at hput
      injection hput with hs'
      subst hs'
      have hidlt : id < s.free_space_offset := id_lt_free s id h1 h5
      have hnfree : n = s.free_space_offset := hn
      have hres2 : (lookupA (insertA s₁.relocated_blocks id n) id).getD id = n := by
        rw [lookupA_insertA_self]
        rfl
      have hflat2 : lookupA (insertA s₁.relocated_blocks id n) n = none := by
        apply lookupA_insertA_ne
        · omega
        · rw [hrel₁]
          cases hl : lookupA s.relocated_blocks n with
          | none => rfl
          | some v =>
            have := h5 n v hl
            omega
      have hkeys2 : ∀ k v, lookupA (insertA s₁.relocated_blocks id n) k = some v →
          k < s₁.free_space_offset := by
        intro k v hkv
        rcases lookupA_insertA_cases _ _ _ _ _ hkv with hk | ⟨w', hw'⟩
        · subst hk
          unfold headerSize at hfree₁
          omega
        · rw [hrel₁] at hw'
          have := h5 k w' hw'
          unfold headerSize at hfree₁
          omega
      have hbound2 : n + headerSize + Ser.fromLeBytes (readBytes s₁.mmap n 8) ≤
          s₁.free_space_offset := by
        rw [hcapval]
        omega
      have hmain := post_write_state ser s₁.free_space_offset s₁.mmap
        (insertA s₁.relocated_blocks id n) s₁.cache s₁.block_cache_size id n
        (Ser.fromLeBytes (readBytes s₁.mmap n 8)) b hres2 hflat2 hkeys2 hfitn hbound2
        hfs₁ hlen₁
      exact hmain

end BlockFile

/-- C6: tuple-store round-trip.  For an allocated block id satisfying the
block invariant, after any successful sequence of `put` calls to that id —
each of which may relocate the block when the serialized value outgrows its
capacity — `get(id)` returns the value of the most recent `put`, and the
invariant still holds.  Relocation is transparent: the caller keeps using the
original id. -/
theorem tuple_store_roundtrip (B : Type) (ser : BlockFile.Serializer B)
    (s : BlockFile.State B) (id : Nat) (vs : List B) (v : B) (s' : BlockFile.State B)
    (hInv : BlockFile.BlockInv s id)
    (hrun : BlockFile.putAll ser s id (vs ++ [v]) = Except.ok s') :
    BlockFile.BlockInv s' id ∧ ∃ s2, BlockFile.get ser s' id = Except.ok (v, s2) := by
  induction vs generalizing s with
  | nil =>
    simp only [List.nil_append, BlockFile.putAll, bind, Except.bind] at hrun
    cases hp : BlockFile.put ser s id v with
    | error e => rw [hp] at hrun; cases hrun
    | ok s1 =>
      rw [hp] at hrun
      simp only [BlockFile.putAll] at hrun
      injection hrun with h'
      subst h'
      exact BlockFile.put_ok_spec ser s id v s1 hInv hp
  | cons b rest ih =>
    simp only [List.cons_append, BlockFile.putAll, bind, Except.bind] at hrun
    cases hp : BlockFile.put ser s id b with
    | error e => rw [hp] at hrun; cases hrun
    | ok s1 =>
      rw [hp] at hrun
      obtain ⟨hInv1, _⟩ := BlockFile.put_ok_spec ser s id b s1 hInv hp
      exact ih s1 hInv1 hrun

/-- Witness for `tuple_store_roundtrip`: on the concrete 64-byte block file
`c6wBlock` with one allocated block of capacity 16 at id 0, the run
`put(0, false); put(0, true)` succeeds and `get(0)` returns `true`. -/
theorem tuple_store_roundtrip_witness :
    BlockFile.BlockInv c6wFinal 0 ∧
      ∃ s2, BlockFile.get boolSer c6wFinal 0 = Except.ok (true, s2) :=
  tuple_store_roundtrip Bool boolSer c6wBlock 0 [false] true c6wFinal
    ⟨by decide, by decide, by decide, by decide,
      fun k v h => by simp [BlockFile.lookupA, c6wBlock] at h⟩
    (by decide)

namespace VKNode

theorem kGet_append (st : List (Option K)) (x : Option K) (id : Nat) (h : id < st.length) :
    kGet (st ++ [x]) id = kGet st id := by
  unfold kGet
  rw [List.getElem?_append_left h]

theorem kGet_push (st : List (Option K)) (k : K) :
    kGet (st ++ [some k]) st.length = Except.ok k := by
  unfold kGet
  rw [List.getElem?_concat_length]

theorem kGet_lt_length (st : List (Option K)) (id : Nat) (k : K)
    (h : kGet st id = Except.ok k) : id < st.length := by
  unfold kGet at h
  cases hq : st[id]? with
  | none => rw [hq] at h; cases h
  | some o =>
    rcases List.getElem?_eq_some.mp hq with ⟨h1, _⟩
    exact h1

end VKNode


namespace VKNode

theorem set_key_eq (nf : NodeFile K) (nodeId i : Nat) (key : K) (v : Node)
    (hv : nf.nodes[nodeId]? = some v) (hle : i ≤ v.numKeys) (hmax : i < MAX_NUMBER_KEYS) :
    set_key nf nodeId i key = Except.ok
      { nodes := nf.nodes.set nodeId
          (if i = v.numKeys then
            { v with
                keys := fun j => if j = i then nf.keyStore.length else v.keys j
                numKeys := v.numKeys + 1 }
          else
            { v with keys := fun j => if j = i then nf.keyStore.length else v.keys j })
        keyStore := nf.keyStore ++ [some key] } := by
  simp only [set_key, getNodeView, hv, kAllocate, kPut, bind, Except.bind]
  rw [if_pos ⟨hle, hmax⟩]
  rw [if_pos (by simp)]
  have hpush : (nf.keyStore ++ [none]).set nf.keyStore.length (some key) =
      nf.keyStore ++ [some key] := by
    rw [List.set_append_right _ _ (le_refl _)]
    simp
  rw [hpush]


theorem get_key_eq (nf : NodeFile K) (nodeId i : Nat) (v : Node)
    (hv : nf.nodes[nodeId]? = some v) (hlt : i < v.numKeys) (hmax : i < MAX_NUMBER_KEYS) :
    get_key nf nodeId i = kGet nf.keyStore (v.keys i) := by
  simp only [get_key, getNodeView, hv, bind, Except.bind]
  rw [if_pos ⟨hlt, hmax⟩]

theorem get_payload_eq (nf : NodeFile K) (nodeId i : Nat) (v : Node)
    (hv : nf.nodes[nodeId]? = some v) (hlt : i < v.numKeys) (hmax : i < MAX_NUMBER_KEYS) :
    get_payload nf nodeId i = Except.ok (v.payloads i) := by
  simp only [get_payload, getNodeView, hv, bind, Except.bind]
  rw [if_pos ⟨hlt, hmax⟩]

theorem get_child_eq (nf : NodeFile K) (nodeId i : Nat) (v : Node)
    (hv : nf.nodes[nodeId]? = some v) (hleaf : v.isLeaf = false)
    (hlt : i < v.numKeys + 1) (hmax : i < MAX_NUMBER_CHILD_NODES) :
    get_child_node nf nodeId i = Except.ok (v.children i) := by
  simp only [get_child_node, getNodeView, hv, bind, Except.bind]
  rw [if_pos ⟨hleaf, hlt, hmax⟩]

theorem set_payload_eq (nf : NodeFile K) (nodeId i value : Nat) (v : Node)
    (hv : nf.nodes[nodeId]? = some v) (hlt : i < v.numKeys) (hmax : i < MAX_NUMBER_KEYS) :
    set_payload nf nodeId i value = Except.ok
      { nodes := nf.nodes.set nodeId
          { v with payloads := fun j => if j = i then value else v.payloads j }
        keyStore := nf.keyStore } := by
  simp only [set_payload, getNodeView, hv, bind, Except.bind]
  rw [if_pos ⟨hlt, hmax⟩]
  rfl

theorem set_child_eq (nf : NodeFile K) (nodeId i value : Nat) (v : Node)
    (hv : nf.nodes[nodeId]? = some v) (hleaf : v.isLeaf = false)
    (hle : i ≤ v.numKeys + 1) (hmax : i < MAX_NUMBER_CHILD_NODES) :
    set_child_node nf nodeId i value = Except.ok
      { nodes := nf.nodes.set nodeId
          { v with
              children := fun j => if j = i then value else v.children j
              isLeaf := false }
        keyStore := nf.keyStore } := by
  simp only [set_child_node, getNodeView, hv, bind, Except.bind, hleaf]
  rw [if_pos (by simp only [Bool.false_eq_true, if_false]; exact ⟨hle, hmax⟩)]
  rfl

theorem setNumKeys_eq (nf : NodeFile K) (nodeId n : Nat) (v : Node)
    (hv : nf.nodes[nodeId]? = some v) :
    setNumKeys nf nodeId n = Except.ok
      { nodes := nf.nodes.set nodeId { v with numKeys := n }
        keyStore := nf.keyStore } := by
  simp only [setNumKeys, getNodeView, hv, bind, Except.bind]
  rfl

theorem number_of_keys_eq (nf : NodeFile K) (nodeId : Nat) (v : Node)
    (hv : nf.nodes[nodeId]? = some v) :
    number_of_keys nf nodeId = Except.ok v.numKeys := by
  simp only [number_of_keys, getNodeView, hv, Except.map]

theorem is_leaf_eq (nf : NodeFile K) (nodeId : Nat) (v : Node)
    (hv : nf.nodes[nodeId]? = some v) :
    is_leaf nf nodeId = Except.ok v.isLeaf := by
  simp only [is_leaf, getNodeView, hv, Except.map]

theorem number_of_children_eq_internal (nf : NodeFile K) (nodeId : Nat) (v : Node)
    (hv : nf.nodes[nodeId]? = some v) (hleaf : v.isLeaf = false) :
    number_of_children nf nodeId = Except.ok (v.numKeys + 1) := by
  simp only [number_of_children, is_leaf_eq nf nodeId v hv, hleaf,
    number_of_keys_eq nf nodeId v hv, bind, Except.bind]
  rfl


theorem copy_body (src tgt a i : Nat) (hne : src ≠ tgt) (nf : NodeFile K)
    (S T : Node) (k₀ : K)
    (hS : nf.nodes[src]? = some S) (hT : nf.nodes[tgt]? = some T)
    (hij : T.numKeys = i - a)
    (hlt : i < S.numKeys) (hmax1 : i < MAX_NUMBER_KEYS)
    (hmax2 : T.numKeys < MAX_NUMBER_KEYS)
    (hk₀ : kGet nf.keyStore (S.keys i) = Except.ok k₀) :
    (do
      let k ← get_key nf src i
      let nf ← set_key nf tgt (i - a) k
      let p ← get_payload nf src i
      set_payload nf tgt (i - a) p) = Except.ok
      { nodes := nf.nodes.set tgt
          { id := T.id, numKeys := T.numKeys + 1, isLeaf := T.isLeaf,
            keys := fun l => if l = i - a then nf.keyStore.length else T.keys l,
            payloads := fun l => if l = i - a then S.payloads i else T.payloads l,
            children := T.children }
        keyStore := nf.keyStore ++ [some k₀] } := by
  have htgtlt : tgt < nf.nodes.length := by
    rcases List.getElem?_eq_some.mp hT with ⟨h, _⟩
    exact h
  simp only [bind, Except.bind]
  rw [get_key_eq nf src i S hS hlt hmax1, hk₀]
  simp only []
  rw [set_key_eq nf tgt (i - a) k₀ T hT (by omega) (by omega)]
  rw [if_pos hij.symm]
  simp only []
  have hS₁ : (nf.nodes.set tgt
      { id := T.id, numKeys := T.numKeys + 1, isLeaf := T.isLeaf,
        keys := fun l => if l = i - a then nf.keyStore.length else T.keys l,
        payloads := T.payloads, children := T.children })[src]? = some S := by
    rw [List.getElem?_set_ne (Ne.symm hne)]
    exact hS
  rw [get_payload_eq _ src i S hS₁ hlt hmax1]
  simp only []
  have hT₁ : (nf.nodes.set tgt
      { id := T.id, numKeys := T.numKeys + 1, isLeaf := T.isLeaf,
        keys := fun l => if l = i - a then nf.keyStore.length else T.keys l,
        payloads := T.payloads, children := T.children })[tgt]? = some
      { id := T.id, numKeys := T.numKeys + 1, isLeaf := T.isLeaf,
        keys := fun l => if l = i - a then nf.keyStore.length else T.keys l,
        payloads := T.payloads, children := T.children } := by
    exact List.getElem?_set_self htgtlt
  rw [set_payload_eq _ tgt (i - a) (S.payloads i) _ hT₁ (by simp only []; omega)
    (by omega)]
  simp only [List.set_set]

theorem copyKP_spec (src tgt a : Nat) (hne : src ≠ tgt) :
    ∀ (cnt j : Nat) (nf : NodeFile K) (S T : Node),
      nf.nodes[src]? = some S →
      nf.nodes[tgt]? = some T →
      T.numKeys = j →
      (∀ l, l < cnt → a + j + l < S.numKeys) →
      S.numKeys ≤ MAX_NUMBER_KEYS →
      j + cnt ≤ MAX_NUMBER_KEYS →
      (∀ l, l < cnt → ∃ k, kGet nf.keyStore (S.keys (a + j + l)) = Except.ok k) →
      ∃ nf' T',
        copyKP src tgt a nf (List.range' (a + j) cnt) = Except.ok nf' ∧
        (∀ o, o ≠ tgt → nf'.nodes[o]? = nf.nodes[o]?) ∧
        nf'.nodes[tgt]? = some T' ∧
        nf'.nodes.length = nf.nodes.length ∧
        T'.numKeys = j + cnt ∧ T'.id = T.id ∧ T'.isLeaf = T.isLeaf ∧
        T'.children = T.children ∧
        (∀ l, l < j → T'.keys l = T.keys l ∧ T'.payloads l = T.payloads l) ∧
        (∀ l, l < cnt → T'.payloads (j + l) = S.payloads (a + j + l) ∧
          (∀ k, kGet nf.keyStore (S.keys (a + j + l)) = Except.ok k →
            kGet nf'.keyStore (T'.keys (j + l)) = Except.ok k)) ∧
        nf.keyStore.length ≤ nf'.keyStore.length ∧
        (∀ q, q < nf.keyStore.length → nf'.keyStore[q]? = nf.keyStore[q]?) := by
  intro cnt
  induction cnt with
  | zero =>
    intro j nf S T hS hT hj _ _ _ _
    exact ⟨nf, T, rfl, fun o _ => rfl, hT, rfl, by omega, rfl, rfl, rfl,
      fun l hl => ⟨rfl, rfl⟩, fun l hl => absurd hl (by omega), le_refl _,
      fun q _ => rfl⟩
  | succ cnt ih =>
    intro j nf S T hS hT hj hbnd hSmax hjmax hkv
    obtain ⟨k₀, hk₀⟩ := hkv 0 (by omega)
    simp only [Nat.add_zero] at hk₀
    have htgtlt : tgt < nf.nodes.length := by
      rcases List.getElem?_eq_some.mp hT with ⟨h, _⟩
      exact h
    have hrange : List.range' (a + j) (cnt + 1) = (a + j) :: List.range' (a + j + 1) cnt := by
      rw [List.range'_succ]
    rw [hrange]
    simp only [copyKP, foldIdx]
    have hbody := copy_body src tgt a (a + j) hne nf S T k₀ hS hT
      (by omega) (by have := hbnd 0 (by omega); omega)
      (by have := hbnd 0 (by omega); omega) (by omega) hk₀
    simp only [bind, Except.bind] at hbody ⊢
    rw [hbody]
    simp only []
    have hias : a + j - a = j := by omega
    rw [hias]
    have hS₂ : ((nf.nodes.set tgt
        { id := T.id, numKeys := T.numKeys + 1, isLeaf := T.isLeaf,
          keys := fun l => if l = j then nf.keyStore.length else T.keys l,
          payloads := fun l => if l = j then S.payloads (a + j) else T.payloads l,
          children := T.children }))[src]? = some S := by
      rw [List.getElem?_set_ne (Ne.symm hne)]
      exact hS
    have hT₂ : ((nf.nodes.set tgt
        { id := T.id, numKeys := T.numKeys + 1, isLeaf := T.isLeaf,
          keys := fun l => if l = j then nf.keyStore.length else T.keys l,
          payloads := fun l => if l = j then S.payloads (a + j) else T.payloads l,
          children := T.children }))[tgt]? = some
        { id := T.id, numKeys := T.numKeys + 1, isLeaf := T.isLeaf,
          keys := fun l => if l = j then nf.keyStore.length else T.keys l,
          payloads := fun l => if l = j then S.payloads (a + j) else T.payloads l,
          children := T.children } :=
      List.getElem?_set_self htgtlt
    obtain ⟨nf', T', hfold, hframe, hT', hlen, hnum, hid, hleaf, hch, hbelow,
        hcopied, hstlen, hstpres⟩ :=
      ih (j + 1)
        { nodes := nf.nodes.set tgt
            { id := T.id, numKeys := T.numKeys + 1, isLeaf := T.isLeaf,
              keys := fun l => if l = j then nf.keyStore.length else T.keys l,
              payloads := fun l => if l = j then S.payloads (a + j) else T.payloads l,
              children := T.children }
          keyStore := nf.keyStore ++ [some k₀] }
        S _ hS₂ hT₂ (by simp only []; omega)
        (fun l hl => by have := hbnd (l + 1) (by omega); omega)
        hSmax (by omega)
        (fun l hl => by
          obtain ⟨k, hk⟩ := hkv (l + 1) (by omega)
          refine ⟨k, ?_⟩
          have hlt := kGet_lt_length nf.keyStore _ k hk
          simp only []
          rw [show a + (j + 1) + l = a + j + (l + 1) from by omega]
          rw [kGet_append _ _ _ hlt]
          exact hk)
    refine ⟨nf', T', hfold, ?_, hT', ?_, by omega, hid, hleaf, hch, ?_, ?_, ?_, ?_⟩
    · intro o ho
      rw [hframe o ho]
      simp only []
      rw [List.getElem?_set_ne (Ne.symm ho)]
    · rw [hlen]
      simp only [List.length_set]
    · intro l hl
      obtain ⟨hk', hp'⟩ := hbelow l (by omega)
      constructor
      · rw [hk']
        simp only [if_neg (by omega : ¬ l = j)]
      · rw [hp']
        simp only [if_neg (by omega : ¬ l = j)]
    · intro l hl
      cases l with
      | zero =>
        obtain ⟨hk', hp'⟩ := hbelow j (by omega)
        constructor
        · rw [Nat.add_zero, hp']
          simp
        · intro k hk
          rw [Nat.add_zero] at hk
          rw [hk₀] at hk
          injection hk with hkk
          subst hkk
          rw [Nat.add_zero, hk']
          simp only [if_pos]
          have hq := hstpres nf.keyStore.length (by simp)
          unfold kGet
          rw [hq]
          simp only [List.getElem?_concat_length]
      | succ l' =>
        obtain ⟨hp', hkf⟩ := hcopied l' (by omega)
        constructor
        · rw [show j + (l' + 1) = j + 1 + l' from by omega, hp']
          congr 1
          omega
        · intro k hk
          rw [show j + (l' + 1) = j + 1 + l' from by omega]
          apply hkf
          have hlt := kGet_lt_length nf.keyStore _ k hk
          simp only []
          rw [show a + (j + 1) + l' = a + j + (l' + 1) from by omega]
          rw [kGet_append _ _ _ hlt]
          exact hk
    · have : nf.keyStore.length ≤ (nf.keyStore ++ [some k₀]).length := by simp
      calc nf.keyStore.length ≤ (nf.keyStore ++ [some k₀]).length := this
        _ ≤ nf'.keyStore.length := hstlen
    · intro q hq
      have h1 := hstpres q (by simp; omega)
      rw [h1]
      simp only []
      rw [List.getElem?_append_left hq]


theorem set_child_eq_leaf (nf : NodeFile K) (nodeId value : Nat) (v : Node)
    (hv : nf.nodes[nodeId]? = some v) (hleaf : v.isLeaf = true) :
    set_child_node nf nodeId 0 value = Except.ok
      { nodes := nf.nodes.set nodeId
          { v with
              children := fun j => if j = 0 then value else v.children j
              isLeaf := false }
        keyStore := nf.keyStore } := by
  simp only [set_child_node, getNodeView, hv, bind, Except.bind, hleaf]
  rw [if_pos (by
    constructor
    · omega
    · unfold MAX_NUMBER_CHILD_NODES MAX_NUMBER_KEYS
      omega)]
  rfl

theorem copyC_spec (src tgt a : Nat) (hne : src ≠ tgt) :
    ∀ (cnt j : Nat) (nf : NodeFile K) (S T : Node),
      nf.nodes[src]? = some S →
      nf.nodes[tgt]? = some T →
      S.isLeaf = false →
      (T.isLeaf = true → j = 0) →
      j + cnt ≤ T.numKeys + 2 →
      (∀ l, l < cnt → a + j + l < S.numKeys + 1) →
      S.numKeys + 1 ≤ MAX_NUMBER_CHILD_NODES →
      j + cnt ≤ MAX_NUMBER_CHILD_NODES →
      ∃ nf' T',
        copyC src tgt a nf (List.range' (a + j) cnt) = Except.ok nf' ∧
        (∀ o, o ≠ tgt → nf'.nodes[o]? = nf.nodes[o]?) ∧
        nf'.nodes[tgt]? = some T' ∧
        nf'.nodes.length = nf.nodes.length ∧
        T'.numKeys = T.numKeys ∧ T'.id = T.id ∧
        T'.keys = T.keys ∧ T'.payloads = T.payloads ∧
        T'.isLeaf = (if cnt = 0 then T.isLeaf else false) ∧
        (∀ l, l < j → T'.children l = T.children l) ∧
        (∀ l, l < cnt → T'.children (j + l) = S.children (a + j + l)) ∧
        nf'.keyStore = nf.keyStore := by
  intro cnt
  induction cnt with
  | zero =>
    intro j nf S T hS hT _ _ _ _ _ _
    exact ⟨nf, T, rfl, fun o _ => rfl, hT, rfl, rfl, rfl, rfl, rfl, by simp,
      fun l _ => rfl, fun l hl => absurd hl (by omega), rfl⟩
  | succ cnt ih =>
    intro j nf S T hS hT hSleaf hTleaf hwr hrd hSmax hjmax
    have htgtlt : tgt < nf.nodes.length := by
      rcases List.getElem?_eq_some.mp hT with ⟨h, _⟩
      exact h
    have hrange : List.range' (a + j) (cnt + 1) = (a + j) :: List.range' (a + j + 1) cnt := by
      rw [List.range'_succ]
    rw [hrange]
    simp only [copyC, foldIdx, bind, Except.bind]
    rw [get_child_eq nf src (a + j) S hS hSleaf (by have := hrd 0 (by omega); omega)
      (by have := hrd 0 (by omega); omega)]
    simp only []
    have hwrite : set_child_node nf tgt (a + j - a) (S.children (a + j)) = Except.ok
        { nodes := nf.nodes.set tgt
            { T with
                children := fun l => if l = j then S.children (a + j) else T.children l
                isLeaf := false }
          keyStore := nf.keyStore } := by
      rw [Nat.add_sub_cancel_left]
      cases hTl : T.isLeaf with
      | true =>
        have hj0 := hTleaf hTl
        subst hj0
        exact set_child_eq_leaf nf tgt (S.children (a + 0)) T hT hTl
      | false =>
        exact set_child_eq nf tgt j (S.children (a + j)) T hT hTl (by omega) (by omega)
    rw [hwrite]
    simp only []
    obtain ⟨nf', T', hfold, hframe, hT', hlen, hnum, hid, hkeys, hpay, hleaf', hbelow,
        hcopied, hst⟩ :=
      ih (j + 1)
        { nodes := nf.nodes.set tgt
            { T with
                children := fun l => if l = j then S.children (a + j) else T.children l
                isLeaf := false }
          keyStore := nf.keyStore }
        S _
        (by simp only []; rw [List.getElem?_set_ne (Ne.symm hne)]; exact hS)
        (by simp only []; exact List.getElem?_set_self htgtlt)
        hSleaf
        (by intro h; simp at h)
        (by simp only []; omega)
        (fun l hl => by have := hrd (l + 1) (by omega); omega)
        hSmax (by omega)
    refine ⟨nf', T', hfold, ?_, hT', ?_, ?_, hid, hkeys, hpay, ?_, ?_, ?_, by rw [hst]⟩
    · intro o ho
      rw [hframe o ho]
      simp only []
      rw [List.getElem?_set_ne (Ne.symm ho)]
    · rw [hlen]
      simp only [List.length_set]
    · rw [hnum]
    · rw [hleaf']
      simp
    · intro l hl
      have := hbelow l (by omega)
      rw [this]
      simp only [if_neg (by omega : ¬ l = j)]
    · intro l hl
      cases l with
      | zero =>
        have := hbelow j (by omega)
        rw [Nat.add_zero, this]
        simp
      | succ l' =>
        have := hcopied l' (by omega)
        rw [show j + (l' + 1) = j + 1 + l' from by omega, this]
        congr 1
        omega


theorem kGet_preserved (st st' : List (Option K)) (id : Nat) (k : K)
    (hpres : ∀ q, q < st.length → st'[q]? = st[q]?)
    (h : kGet st id = Except.ok k) : kGet st' id = Except.ok k := by
  have hlt := kGet_lt_length st id k h
  unfold kGet at h ⊢
  rw [hpres id hlt]
  exact h

theorem shift_body (pid i : Nat) (nf : NodeFile K) (Q : Node) (k₀ : K)
    (hQ : nf.nodes[pid]? = some Q) (h1 : 1 ≤ i) (hle : i ≤ Q.numKeys)
    (hmax : i < MAX_NUMBER_KEYS)
    (hk : kGet nf.keyStore (Q.keys (i - 1)) = Except.ok k₀) :
    (do
      let k ← get_key nf pid (i - 1)
      let nf ← set_key nf pid i k
      let p ← get_payload nf pid (i - 1)
      set_payload nf pid i p) = Except.ok
      { nodes := nf.nodes.set pid
          { id := Q.id
            numKeys := if i = Q.numKeys then Q.numKeys + 1 else Q.numKeys
            isLeaf := Q.isLeaf
            keys := fun l => if l = i then nf.keyStore.length else Q.keys l
            payloads := fun l => if l = i then Q.payloads (i - 1) else Q.payloads l
            children := Q.children }
        keyStore := nf.keyStore ++ [some k₀] } := by
  have hplt : pid < nf.nodes.length := by
    rcases List.getElem?_eq_some.mp hQ with ⟨h, _⟩
    exact h
  simp only [bind, Except.bind]
  rw [get_key_eq nf pid (i - 1) Q hQ (by omega) (by omega), hk]
  simp only []
  rw [set_key_eq nf pid i k₀ Q hQ hle hmax]
  simp only []
  by_cases hbump : i = Q.numKeys
  · rw [if_pos hbump]
    have hQ₁ : (nf.nodes.set pid
        { id := Q.id, numKeys := Q.numKeys + 1, isLeaf := Q.isLeaf,
          keys := fun l => if l = i then nf.keyStore.length else Q.keys l,
          payloads := Q.payloads, children := Q.children })[pid]? = some
        { id := Q.id, numKeys := Q.numKeys + 1, isLeaf := Q.isLeaf,
          keys := fun l => if l = i then nf.keyStore.length else Q.keys l,
          payloads := Q.payloads, children := Q.children } :=
      List.getElem?_set_self hplt
    rw [get_payload_eq _ pid (i - 1) _ hQ₁ (by simp only []; omega) (by omega)]
    simp only []
    rw [set_payload_eq _ pid i (Q.payloads (i - 1)) _ hQ₁ (by simp only []; omega)
      (by omega)]
    simp only [setNodeView, List.set_set]
    rw [if_pos hbump]
  · rw [if_neg hbump]
    have hQ₁ : (nf.nodes.set pid
        { id := Q.id, numKeys := Q.numKeys, isLeaf := Q.isLeaf,
          keys := fun l => if l = i then nf.keyStore.length else Q.keys l,
          payloads := Q.payloads, children := Q.children })[pid]? = some
        { id := Q.id, numKeys := Q.numKeys, isLeaf := Q.isLeaf,
          keys := fun l => if l = i then nf.keyStore.length else Q.keys l,
          payloads := Q.payloads, children := Q.children } :=
      List.getElem?_set_self hplt
    rw [get_payload_eq _ pid (i - 1) _ hQ₁ (by simp only []; omega) (by omega)]
    simp only []
    rw [set_payload_eq _ pid i (Q.payloads (i - 1)) _ hQ₁
      (by simp only []; omega) (by omega)]
    simp only [setNodeView, List.set_set]
    rw [if_neg hbump]


theorem shiftKP_desc (pid : Nat) :
    ∀ (cnt b : Nat) (nf : NodeFile K) (Q : Node),
      nf.nodes[pid]? = some Q →
      b + cnt < Q.numKeys →
      Q.numKeys ≤ MAX_NUMBER_KEYS →
      (∀ l, b ≤ l → l < b + cnt → ∃ k, kGet nf.keyStore (Q.keys l) = Except.ok k) →
      ∃ nf' Q',
        foldIdx (fun nf i => do
            let k ← get_key nf pid (i - 1)
            let nf ← set_key nf pid i k
            let p ← get_payload nf pid (i - 1)
            set_payload nf pid i p)
          (List.range' (b + 1) cnt).reverse nf = Except.ok nf' ∧
        (∀ o, o ≠ pid → nf'.nodes[o]? = nf.nodes[o]?) ∧
        nf'.nodes[pid]? = some Q' ∧
        nf'.nodes.length = nf.nodes.length ∧
        Q'.numKeys = Q.numKeys ∧ Q'.id = Q.id ∧ Q'.isLeaf = Q.isLeaf ∧
        Q'.children = Q.children ∧
        (∀ l, l ≤ b → Q'.keys l = Q.keys l ∧ Q'.payloads l = Q.payloads l) ∧
        (∀ l, b + cnt < l → Q'.keys l = Q.keys l ∧ Q'.payloads l = Q.payloads l) ∧
        (∀ l, b ≤ l → l < b + cnt →
          (∀ k, kGet nf.keyStore (Q.keys l) = Except.ok k →
            kGet nf'.keyStore (Q'.keys (l + 1)) = Except.ok k) ∧
          Q'.payloads (l + 1) = Q.payloads l) ∧
        nf.keyStore.length ≤ nf'.keyStore.length ∧
        (∀ q, q < nf.keyStore.length → nf'.keyStore[q]? = nf.keyStore[q]?) := by
  intro cnt
  induction cnt with
  | zero =>
    intro b nf Q hQ _ _ _
    exact ⟨nf, Q, rfl, fun o _ => rfl, hQ, rfl, rfl, rfl, rfl, rfl,
      fun l _ => ⟨rfl, rfl⟩, fun l _ => ⟨rfl, rfl⟩,
      fun l _ hl => absurd hl (by omega), le_refl _, fun q _ => rfl⟩
  | succ cnt ih =>
    intro b nf Q hQ hlt hmax hkv
    have hplt : pid < nf.nodes.length := by
      rcases List.getElem?_eq_some.mp hQ with ⟨h, _⟩
      exact h
    obtain ⟨k₀, hk₀⟩ := hkv (b + cnt) (by omega) (by omega)
    have hrange : (List.range' (b + 1) (cnt + 1)).reverse =
        (b + 1 + cnt) :: (List.range' (b + 1) cnt).reverse := by
      rw [List.range'_concat, List.reverse_append]
      simp
    rw [hrange]
    simp only [foldIdx, bind, Except.bind]
    have hbody := shift_body pid (b + 1 + cnt) nf Q k₀ hQ (by omega) (by omega)
      (by omega) (by rw [show b + 1 + cnt - 1 = b + cnt from by omega]; exact hk₀)
    simp only [bind, Except.bind] at hbody
    rw [hbody]
    simp only []
    rw [if_neg (by omega : ¬ b + 1 + cnt = Q.numKeys)]
    obtain ⟨nf', Q', hfold, hframe, hQ', hlen, hnum, hid, hleaf, hch, hlo, hhi,
        hshift, hslen, hspres⟩ :=
      ih b
        { nodes := nf.nodes.set pid
            { id := Q.id, numKeys := Q.numKeys, isLeaf := Q.isLeaf,
              keys := fun l => if l = b + 1 + cnt then nf.keyStore.length else Q.keys l,
              payloads := fun l => if l = b + 1 + cnt then Q.payloads (b + 1 + cnt - 1)
                else Q.payloads l,
              children := Q.children }
          keyStore := nf.keyStore ++ [some k₀] }
        _
        (by simp only []; exact List.getElem?_set_self hplt)
        (by simp only []; omega) (by simp only []; omega)
        (by
          intro l hbl hl
          obtain ⟨k, hk⟩ := hkv l hbl (by omega)
          refine ⟨k, ?_⟩
          simp only [if_neg (by omega : ¬ l = b + 1 + cnt)]
          exact kGet_preserved _ _ _ _ (fun q hq => by
            rw [List.getElem?_append_left hq]) hk)
    refine ⟨nf', Q', hfold, ?_, hQ', ?_, ?_, hid, hleaf, hch, ?_, ?_, ?_, ?_, ?_⟩
    · intro o ho
      rw [hframe o ho]
      simp only []
      rw [List.getElem?_set_ne (Ne.symm ho)]
    · rw [hlen]
      simp only [List.length_set]
    · rw [hnum]
    · intro l hl
      obtain ⟨h1, h2⟩ := hlo l hl
      refine ⟨?_, ?_⟩
      · rw [h1]
        simp only [if_neg (by omega : ¬ l = b + 1 + cnt)]
      · rw [h2]
        simp only [if_neg (by omega : ¬ l = b + 1 + cnt)]
    · intro l hl
      obtain ⟨h1, h2⟩ := hhi l (by omega)
      refine ⟨?_, ?_⟩
      · rw [h1]
        simp only [if_neg (by omega : ¬ l = b + 1 + cnt)]
      · rw [h2]
        simp only [if_neg (by omega : ¬ l = b + 1 + cnt)]
    · intro l hbl hl
      by_cases htop : l = b + cnt
      · subst htop
        obtain ⟨h1, h2⟩ := hhi (b + cnt + 1) (by omega)
        have hkey : Q'.keys (b + cnt + 1) = nf.keyStore.length := by
          rw [h1]
          simp only []
          rw [if_pos (show b + cnt + 1 = b + 1 + cnt from by omega)]
        have hpay : Q'.payloads (b + cnt + 1) = Q.payloads (b + cnt) := by
          rw [h2]
          simp only []
          rw [if_pos (show b + cnt + 1 = b + 1 + cnt from by omega)]
          congr 1
          omega
        refine ⟨?_, hpay⟩
        intro k hk
        rw [hkey]
        rw [hk₀] at hk
        injection hk with hk
        subst hk
        refine kGet_preserved _ _ _ _ hspres ?_
        unfold kGet
        rw [List.getElem?_concat_length]
      · obtain ⟨h1, h2⟩ := hshift l hbl (by omega)
        refine ⟨?_, ?_⟩
        · intro k hk
          refine h1 k ?_
          simp only [if_neg (by omega : ¬ l = b + 1 + cnt)]
          exact kGet_preserved _ _ _ _ (fun q hq => by
            rw [List.getElem?_append_left hq]) hk
        · rw [h2]
          simp only [if_neg (by omega : ¬ l = b + 1 + cnt)]
    · simp at hslen
      omega
    · intro q hq
      rw [hspres q (by simp only [List.length_append]; omega)]
      rw [List.getElem?_append_left hq]


theorem shiftKP_full (pid : Nat) (c : Nat) (nf : NodeFile K) (Q : Node)
    (hQ : nf.nodes[pid]? = some Q) (hc : c ≤ Q.numKeys)
    (hmax : Q.numKeys < MAX_NUMBER_KEYS)
    (hkv : ∀ l, c ≤ l → l < Q.numKeys → ∃ k, kGet nf.keyStore (Q.keys l) = Except.ok k) :
    ∃ nf' Q',
      foldIdx (fun nf i => do
          let k ← get_key nf pid (i - 1)
          let nf ← set_key nf pid i k
          let p ← get_payload nf pid (i - 1)
          set_payload nf pid i p)
        (List.range' (c + 1) (Q.numKeys - c)).reverse nf = Except.ok nf' ∧
      (∀ o, o ≠ pid → nf'.nodes[o]? = nf.nodes[o]?) ∧
      nf'.nodes[pid]? = some Q' ∧
      nf'.nodes.length = nf.nodes.length ∧
      Q'.numKeys = (if c < Q.numKeys then Q.numKeys + 1 else Q.numKeys) ∧
      Q'.id = Q.id ∧ Q'.isLeaf = Q.isLeaf ∧ Q'.children = Q.children ∧
      (∀ l, l ≤ c → Q'.keys l = Q.keys l ∧ Q'.payloads l = Q.payloads l) ∧
      (∀ l, Q.numKeys < l → Q'.keys l = Q.keys l ∧ Q'.payloads l = Q.payloads l) ∧
      (∀ l, c ≤ l → l < Q.numKeys →
        (∀ k, kGet nf.keyStore (Q.keys l) = Except.ok k →
          kGet nf'.keyStore (Q'.keys (l + 1)) = Except.ok k) ∧
        Q'.payloads (l + 1) = Q.payloads l) ∧
      nf.keyStore.length ≤ nf'.keyStore.length ∧
      (∀ q, q < nf.keyStore.length → nf'.keyStore[q]? = nf.keyStore[q]?) := by
  by_cases hcn : c = Q.numKeys
  · subst hcn
    rw [Nat.sub_self]
    exact ⟨nf, Q, rfl, fun o _ => rfl, hQ, rfl, by rw [if_neg (by omega)], rfl, rfl,
      rfl, fun l _ => ⟨rfl, rfl⟩, fun l _ => ⟨rfl, rfl⟩,
      fun l h1 h2 => absurd h2 (by omega), le_refl _, fun q _ => rfl⟩
  · have hclt : c < Q.numKeys := by omega
    have hplt : pid < nf.nodes.length := by
      rcases List.getElem?_eq_some.mp hQ with ⟨h, _⟩
      exact h
    obtain ⟨k₀, hk₀⟩ := hkv (Q.numKeys - 1) (by omega) (by omega)
    have hrange : ∀ m, c + 1 + m = Q.numKeys →
        (List.range' (c + 1) (m + 1)).reverse =
          Q.numKeys :: (List.range' (c + 1) m).reverse := by
      intro m hm
      rw [List.range'_concat, List.reverse_append]
      simp only [List.reverse_singleton, List.singleton_append, one_mul]
      rw [hm]
    rw [show Q.numKeys - c = (Q.numKeys - c - 1) + 1 from by omega,
      hrange (Q.numKeys - c - 1) (by omega)]
    simp only [foldIdx, bind, Except.bind]
    have hbody := shift_body pid Q.numKeys nf Q k₀ hQ (by omega) (le_refl _)
      hmax hk₀
    simp only [bind, Except.bind] at hbody
    have hbody2 : (do
        let k ← get_key nf pid (Q.numKeys - 1)
        let nf ← set_key nf pid Q.numKeys k
        let p ← get_payload nf pid (Q.numKeys - 1)
        set_payload nf pid Q.numKeys p) = Except.ok
        { nodes := nf.nodes.set pid
            { id := Q.id, numKeys := Q.numKeys + 1, isLeaf := Q.isLeaf,
              keys := fun l => if l = Q.numKeys then nf.keyStore.length else Q.keys l,
              payloads := fun l => if l = Q.numKeys then Q.payloads (Q.numKeys - 1)
                else Q.payloads l,
              children := Q.children }
          keyStore := nf.keyStore ++ [some k₀] } := by
      simp only [bind, Except.bind]
      rw [hbody]
      simp
    simp only [bind, Except.bind] at hbody2
    rw [hbody2]
    simp only []
    obtain ⟨nf', Q', hfold, hframe, hQ', hlen, hnum, hid, hleaf, hch, hlo, hhi,
        hshift, hslen, hspres⟩ :=
      shiftKP_desc pid (Q.numKeys - c - 1) c
        { nodes := nf.nodes.set pid
            { id := Q.id, numKeys := Q.numKeys + 1, isLeaf := Q.isLeaf,
              keys := fun l => if l = Q.numKeys then nf.keyStore.length else Q.keys l,
              payloads := fun l => if l = Q.numKeys then Q.payloads (Q.numKeys - 1)
                else Q.payloads l,
              children := Q.children }
          keyStore := nf.keyStore ++ [some k₀] }
        _
        (by simp only []; exact List.getElem?_set_self hplt)
        (by simp only []; omega) (by simp only []; omega)
        (by
          intro l hbl hl
          obtain ⟨k, hk⟩ := hkv l hbl (by omega)
          refine ⟨k, ?_⟩
          simp only [if_neg (by omega : ¬ l = Q.numKeys)]
          exact kGet_preserved _ _ _ _ (fun q hq => by
            rw [List.getElem?_append_left hq]) hk)
    refine ⟨nf', Q', hfold, ?_, hQ', ?_, ?_, hid, hleaf, hch, ?_, ?_, ?_, ?_, ?_⟩
    · intro o ho
      rw [hframe o ho]
      simp only []
      rw [List.getElem?_set_ne (Ne.symm ho)]
    · rw [hlen]
      simp only [List.length_set]
    · rw [hnum]
      simp only []
      rw [if_pos hclt]
    · intro l hl
      obtain ⟨h1, h2⟩ := hlo l hl
      refine ⟨?_, ?_⟩
      · rw [h1]
        simp only [if_neg (by omega : ¬ l = Q.numKeys)]
      · rw [h2]
        simp only [if_neg (by omega : ¬ l = Q.numKeys)]
    · intro l hl
      obtain ⟨h1, h2⟩ := hhi l (by omega)
      refine ⟨?_, ?_⟩
      · rw [h1]
        simp only [if_neg (by omega : ¬ l = Q.numKeys)]
      · rw [h2]
        simp only [if_neg (by omega : ¬ l = Q.numKeys)]
    · intro l hbl hl
      by_cases htop : l = Q.numKeys - 1
      · subst htop
        obtain ⟨h1, h2⟩ := hhi (Q.numKeys - 1 + 1) (by omega)
        have hkey : Q'.keys (Q.numKeys - 1 + 1) = nf.keyStore.length := by
          rw [h1]
          simp only []
          rw [if_pos (show Q.numKeys - 1 + 1 = Q.numKeys from by omega)]
        have hpay : Q'.payloads (Q.numKeys - 1 + 1) = Q.payloads (Q.numKeys - 1) := by
          rw [h2]
          simp only []
          rw [if_pos (show Q.numKeys - 1 + 1 = Q.numKeys from by omega)]
        refine ⟨?_, hpay⟩
        intro k hk
        rw [hkey]
        rw [hk₀] at hk
        injection hk with hk
        subst hk
        refine kGet_preserved _ _ _ _ hspres ?_
        unfold kGet
        rw [List.getElem?_concat_length]
      · obtain ⟨h1, h2⟩ := hshift l hbl (by omega)
        refine ⟨?_, ?_⟩
        · intro k hk
          refine h1 k ?_
          simp only [if_neg (by omega : ¬ l = Q.numKeys)]
          exact kGet_preserved _ _ _ _ (fun q hq => by
            rw [List.getElem?_append_left hq]) hk
        · rw [h2]
          simp only [if_neg (by omega : ¬ l = Q.numKeys)]
    · simp at hslen
      omega
    · intro q hq
      rw [hspres q (by simp only [List.length_append]; omega)]
      rw [List.getElem?_append_left hq]


theorem shiftC_desc (pid : Nat) :
    ∀ (cnt b : Nat) (nf : NodeFile K) (Q : Node),
      nf.nodes[pid]? = some Q →
      Q.isLeaf = false →
      b + cnt ≤ Q.numKeys + 1 →
      b + cnt < MAX_NUMBER_CHILD_NODES →
      ∃ nf' Q',
        foldIdx (fun nf i => do
            let c ← get_child_node nf pid (i - 1)
            set_child_node nf pid i c)
          (List.range' (b + 1) cnt).reverse nf = Except.ok nf' ∧
        (∀ o, o ≠ pid → nf'.nodes[o]? = nf.nodes[o]?) ∧
        nf'.nodes[pid]? = some Q' ∧
        nf'.nodes.length = nf.nodes.length ∧
        Q'.numKeys = Q.numKeys ∧ Q'.id = Q.id ∧ Q'.isLeaf = false ∧
        Q'.keys = Q.keys ∧ Q'.payloads = Q.payloads ∧
        (∀ l, l ≤ b → Q'.children l = Q.children l) ∧
        (∀ l, b + cnt < l → Q'.children l = Q.children l) ∧
        (∀ l, b ≤ l → l < b + cnt → Q'.children (l + 1) = Q.children l) ∧
        nf'.keyStore = nf.keyStore := by
  intro cnt
  induction cnt with
  | zero =>
    intro b nf Q hQ hleaf _ _
    exact ⟨nf, Q, rfl, fun o _ => rfl, hQ, rfl, rfl, rfl, hleaf, rfl, rfl,
      fun l _ => rfl, fun l _ => rfl, fun l _ hl => absurd hl (by omega), rfl⟩
  | succ cnt ih =>
    intro b nf Q hQ hleaf hwr hmax
    have hplt : pid < nf.nodes.length := by
      rcases List.getElem?_eq_some.mp hQ with ⟨h, _⟩
      exact h
    have hrange : ∀ m, (List.range' (b + 1) (m + 1)).reverse =
        (b + 1 + m) :: (List.range' (b + 1) m).reverse := by
      intro m
      rw [List.range'_concat, List.reverse_append]
      simp only [List.reverse_singleton, List.singleton_append, one_mul]
    rw [hrange]
    simp only [foldIdx, bind, Except.bind]
    rw [show b + 1 + cnt - 1 = b + cnt from by omega]
    rw [get_child_eq nf pid (b + cnt) Q hQ hleaf (by omega) (by omega)]
    simp only []
    rw [set_child_eq nf pid (b + 1 + cnt) (Q.children (b + cnt)) Q hQ hleaf
      (by omega) (by omega)]
    simp only [setNodeView]
    obtain ⟨nf', Q', hfold, hframe, hQ', hlen, hnum, hid, hleaf', hkeys, hpay,
        hlo, hhi, hshift, hst⟩ :=
      ih b
        { nodes := nf.nodes.set pid
            { id := Q.id, numKeys := Q.numKeys, isLeaf := false, keys := Q.keys,
              payloads := Q.payloads,
              children := fun l => if l = b + 1 + cnt then Q.children (b + cnt)
                else Q.children l }
          keyStore := nf.keyStore }
        _
        (by simp only []; exact List.getElem?_set_self hplt)
        rfl (by simp only []; omega) (by omega)
    refine ⟨nf', Q', ?_, ?_, hQ', ?_, ?_, hid, hleaf', hkeys, hpay, ?_, ?_, ?_,
      by rw [hst]⟩
    · rw [← hfold]
      rfl
    · intro o ho
      rw [hframe o ho]
      simp only []
      rw [List.getElem?_set_ne (Ne.symm ho)]
    · rw [hlen]
      simp only [List.length_set]
    · rw [hnum]
    · intro l hl
      rw [hlo l hl]
      simp only [if_neg (by omega : ¬ l = b + 1 + cnt)]
    · intro l hl
      rw [hhi l (by omega)]
      simp only [if_neg (by omega : ¬ l = b + 1 + cnt)]
    · intro l hbl hl
      by_cases htop : l = b + cnt
      · subst htop
        rw [hhi (b + cnt + 1) (by omega)]
        simp only []
        rw [if_pos (show b + cnt + 1 = b + 1 + cnt from by omega)]
      · rw [hshift l hbl (by omega)]
        simp only [if_neg (by omega : ¬ l = b + 1 + cnt)]


theorem split_off_spec (nf : NodeFile K) (src splitAt : Nat) (S : Node)
    (hS : nf.nodes[src]? = some S)
    (hsplit : splitAt < S.numKeys)
    (hmax : S.numKeys ≤ MAX_NUMBER_KEYS)
    (hkv : ∀ l, splitAt ≤ l → l < S.numKeys →
      ∃ k, kGet nf.keyStore (S.keys l) = Except.ok k) :
    ∃ nf' T',
      split_off nf src splitAt = Except.ok (nf.nodes.length, nf') ∧
      (∀ o, o ≠ src → o ≠ nf.nodes.length → nf'.nodes[o]? = nf.nodes[o]?) ∧
      nf'.nodes[src]? = some
        { id := S.id, numKeys := splitAt, isLeaf := S.isLeaf, keys := S.keys,
          payloads := S.payloads, children := S.children } ∧
      nf'.nodes[nf.nodes.length]? = some T' ∧
      nf'.nodes.length = nf.nodes.length + 1 ∧
      T'.numKeys = S.numKeys - splitAt ∧
      T'.id = nf.nodes.length ∧
      T'.isLeaf = S.isLeaf ∧
      (∀ l, l < S.numKeys - splitAt →
        T'.payloads l = S.payloads (splitAt + l) ∧
        (∀ k, kGet nf.keyStore (S.keys (splitAt + l)) = Except.ok k →
          kGet nf'.keyStore (T'.keys l) = Except.ok k)) ∧
      (S.isLeaf = false → ∀ l, l < S.numKeys + 1 - splitAt →
        T'.children l = S.children (splitAt + l)) ∧
      nf.keyStore.length ≤ nf'.keyStore.length ∧
      (∀ q, q < nf.keyStore.length → nf'.keyStore[q]? = nf.keyStore[q]?) := by
  have hsrclt : src < nf.nodes.length := by
    rcases List.getElem?_eq_some.mp hS with ⟨h, _⟩
    exact h
  have hne : src ≠ nf.nodes.length := by omega
  simp only [split_off, bind, Except.bind]
  rw [number_of_keys_eq nf src S hS]
  simp only []
  rw [if_pos hsplit]
  simp only [allocate_new_node]
  obtain ⟨nf₁, T₁, hfold, hframe₁, hT₁, hlen₁, hnum₁, hid₁, hleaf₁, hch₁, _,
      hcopied₁, hslen₁, hspres₁⟩ :=
    copyKP_spec src nf.nodes.length splitAt hne (S.numKeys - splitAt) 0
      { nodes := nf.nodes ++
          [{ id := nf.nodes.length, numKeys := 0, isLeaf := true, keys := fun _ => 0,
             payloads := fun _ => 0, children := fun _ => 0 }]
        keyStore := nf.keyStore }
      S _
      (by simp only []; rw [List.getElem?_append_left hsrclt]; exact hS)
      (by simp only []; exact List.getElem?_concat_length _ _)
      rfl
      (fun l hl => by omega)
      hmax (by omega)
      (fun l hl => by
        obtain ⟨k, hk⟩ := hkv (splitAt + 0 + l) (by omega) (by omega)
        exact ⟨k, hk⟩)
  rw [Nat.add_zero] at hfold
  rw [hfold]
  simp only []
  have hS₁ : nf₁.nodes[src]? = some S := by
    rw [hframe₁ src hne]
    simp only []
    rw [List.getElem?_append_left hsrclt]
    exact hS
  rw [is_leaf_eq nf₁ src S hS₁]
  simp only []
  have hT₁id : nf₁.nodes[nf.nodes.length]? = some T₁ := by
    simpa using hT₁
  have hlen₁' : nf₁.nodes.length = nf.nodes.length + 1 := by
    rw [hlen₁]
    simp
  cases hleafS : S.isLeaf with
  | true =>
    simp only []
    rw [setNumKeys_eq nf₁ src splitAt S hS₁]
    simp only []
    refine ⟨_, T₁, rfl, ?_, ?_, ?_, ?_, by omega, hid₁, ?_, ?_, ?_, ?_, ?_⟩
    · intro o ho hol
      simp only []
      rw [List.getElem?_set_ne (Ne.symm ho), hframe₁ o hol]
      simp only []
      rcases Nat.lt_or_ge o nf.nodes.length with h | h
      · rw [List.getElem?_append_left h]
      · rw [List.getElem?_eq_none (by simp; omega), List.getElem?_eq_none (by omega)]
    · simp only []
      have hlt : src < nf₁.nodes.length := by omega
      rw [List.getElem?_set_self hlt, hleafS]
    · simp only []
      rw [List.getElem?_set_ne hne]
      exact hT₁id
    · simp only [List.length_set]
      exact hlen₁'
    · exact hleaf₁
    · intro l hl
      obtain ⟨h1, h2⟩ := hcopied₁ l hl
      rw [show splitAt + 0 + l = splitAt + l from by omega, Nat.zero_add] at h1 h2
      exact ⟨h1, h2⟩
    · intro hfalse
      exact absurd hfalse (by decide)
    · exact hslen₁
    · intro q hq
      exact hspres₁ q hq
  | false =>
    simp only []
    rw [number_of_children_eq_internal nf₁ src S hS₁ hleafS]
    simp only []
    obtain ⟨nf₂, T₂, hfold₂, hframe₂, hT₂, hlen₂, hnum₂, hid₂, hkeys₂, hpay₂,
        hleaf₂, _, hcopied₂, hst₂⟩ :=
      copyC_spec src nf.nodes.length splitAt hne (S.numKeys + 1 - splitAt) 0 nf₁ S T₁
        hS₁ hT₁id hleafS
        (fun _ => rfl)
        (by omega)
        (fun l hl => by omega)
        (by unfold MAX_NUMBER_CHILD_NODES; omega)
        (by unfold MAX_NUMBER_CHILD_NODES; omega)
    rw [Nat.add_zero] at hfold₂
    rw [hfold₂]
    simp only []
    have hS₂ : nf₂.nodes[src]? = some S := by
      rw [hframe₂ src hne]
      exact hS₁
    rw [setNumKeys_eq nf₂ src splitAt S hS₂]
    simp only []
    refine ⟨_, T₂, rfl, ?_, ?_, ?_, ?_, ?_, ?_, ?_, ?_, ?_, ?_, ?_⟩
    · intro o ho hol
      simp only []
      rw [List.getElem?_set_ne (Ne.symm ho), hframe₂ o hol, hframe₁ o hol]
      simp only []
      rcases Nat.lt_or_ge o nf.nodes.length with h | h
      · rw [List.getElem?_append_left h]
      · rw [List.getElem?_eq_none (by simp; omega), List.getElem?_eq_none (by omega)]
    · simp only []
      have hlt : src < nf₂.nodes.length := by omega
      rw [List.getElem?_set_self hlt, hleafS]
    · simp only []
      rw [List.getElem?_set_ne hne]
      exact hT₂
    · simp only [List.length_set]
      omega
    · rw [hnum₂, hnum₁]
      omega
    · exact hid₂.trans hid₁
    · rw [hleaf₂]
      rw [if_neg (by omega : ¬ S.numKeys + 1 - splitAt = 0)]
    · intro l hl
      obtain ⟨h1, h2⟩ := hcopied₁ l hl
      rw [show splitAt + 0 + l = splitAt + l from by omega, Nat.zero_add] at h1 h2
      refine ⟨?_, ?_⟩
      · rw [hpay₂]
        exact h1
      · intro k hk
        rw [hst₂, hkeys₂]
        exact h2 k hk
    · intro _ l hl
      have hc := hcopied₂ l (by omega)
      rw [Nat.zero_add, show splitAt + 0 + l = splitAt + l from by omega] at hc
      exact hc
    · rw [hst₂]
      exact hslen₁
    · intro q hq
      rw [hst₂]
      exact hspres₁ q hq


/-- C7: `NodeFile::split_child(parent_id, child_idx, t)` on a child holding
exactly `2t-1` keys allocates one new sibling node, moves the upper `t-1`
keys and payloads (and the upper `t` children, if the child is internal)
into the sibling, leaves the lower `t-1` keys in the old child, promotes the
median key (slot `t-1`) with its payload into the parent at `child_idx`
(shifting the parent keys, payloads and children at positions beyond
`child_idx` right by one), inserts the sibling id as child `child_idx + 1`,
and returns `(old_child_id, new_sibling_id)`. -/
theorem node_split_child_spec (nf : NodeFile K) (parent childIdx t : Nat) (P S : Node)
    (hP : nf.nodes[parent]? = some P)
    (hPleaf : P.isLeaf = false)
    (hchild : nf.nodes[P.children childIdx]? = some S)
    (hne : P.children childIdx ≠ parent)
    (hcidx : childIdx ≤ P.numKeys)
    (hroom : P.numKeys + 1 < MAX_NUMBER_KEYS)
    (ht : 2 ≤ t)
    (hSkeys : S.numKeys = 2 * t - 1)
    (hSmax : S.numKeys ≤ MAX_NUMBER_KEYS)
    (hkvS : ∀ l, l < S.numKeys → ∃ k, kGet nf.keyStore (S.keys l) = Except.ok k)
    (hkvP : ∀ l, childIdx ≤ l → l < P.numKeys →
      ∃ k, kGet nf.keyStore (P.keys l) = Except.ok k) :
    ∃ nf' P' T' mk,
      split_child nf parent childIdx t =
        Except.ok ((P.children childIdx, nf.nodes.length), nf') ∧
      nf'.nodes.length = nf.nodes.length + 1 ∧
      (∀ o, o ≠ parent → o ≠ P.children childIdx → o ≠ nf.nodes.length →
        nf'.nodes[o]? = nf.nodes[o]?) ∧
      nf'.nodes[P.children childIdx]? = some
        { id := S.id, numKeys := t - 1, isLeaf := S.isLeaf, keys := S.keys,
          payloads := S.payloads, children := S.children } ∧
      nf'.nodes[nf.nodes.length]? = some T' ∧
      T'.numKeys = t - 1 ∧
      T'.isLeaf = S.isLeaf ∧
      (∀ l, l < t - 1 →
        T'.payloads l = S.payloads (t + l) ∧
        (∀ k, kGet nf.keyStore (S.keys (t + l)) = Except.ok k →
          kGet nf'.keyStore (T'.keys l) = Except.ok k)) ∧
      (S.isLeaf = false → ∀ l, l < t → T'.children l = S.children (t + l)) ∧
      nf'.nodes[parent]? = some P' ∧
      P'.numKeys = P.numKeys + 1 ∧
      P'.isLeaf = false ∧
      P'.id = P.id ∧
      (∀ l, l < childIdx →
        P'.payloads l = P.payloads l ∧
        (∀ k, kGet nf.keyStore (P.keys l) = Except.ok k →
          kGet nf'.keyStore (P'.keys l) = Except.ok k)) ∧
      kGet nf.keyStore (S.keys (t - 1)) = Except.ok mk ∧
      kGet nf'.keyStore (P'.keys childIdx) = Except.ok mk ∧
      P'.payloads childIdx = S.payloads (t - 1) ∧
      (∀ l, childIdx ≤ l → l < P.numKeys →
        P'.payloads (l + 1) = P.payloads l ∧
        (∀ k, kGet nf.keyStore (P.keys l) = Except.ok k →
          kGet nf'.keyStore (P'.keys (l + 1)) = Except.ok k)) ∧
      (∀ l, l ≤ childIdx → P'.children l = P.children l) ∧
      P'.children (childIdx + 1) = nf.nodes.length ∧
      (∀ l, childIdx + 1 ≤ l → l ≤ P.numKeys →
        P'.children (l + 1) = P.children l) := by
  have hparlt : parent < nf.nodes.length := by
    rcases List.getElem?_eq_some.mp hP with ⟨h, _⟩
    exact h
  have hchlt : P.children childIdx < nf.nodes.length := by
    rcases List.getElem?_eq_some.mp hchild with ⟨h, _⟩
    exact h
  have hpne : parent ≠ P.children childIdx := Ne.symm hne
  have hMC : MAX_NUMBER_CHILD_NODES = MAX_NUMBER_KEYS + 1 := rfl
  simp only [split_child, bind, Except.bind]
  rw [get_child_eq nf parent childIdx P hP hPleaf (by omega) (by omega)]
  simp only []
  obtain ⟨nfA, TA, hso, hfrA, hsrcA, htgtA, hlenA, hTAnum, hTAid, hTAleaf, hTAcopy,
      hTAchild, hslenA, hspresA⟩ :=
    split_off_spec nf (P.children childIdx) t S hchild (by omega) hSmax
      (fun l _ h2 => hkvS l h2)
  rw [hso]
  simp only []
  obtain ⟨mk, hmk⟩ := hkvS (t - 1) (by omega)
  have hmkA : kGet nfA.keyStore (S.keys (t - 1)) = Except.ok mk :=
    kGet_preserved _ _ _ _ hspresA hmk
  have hkey_eval : get_key nfA (P.children childIdx) (t - 1) = Except.ok mk := by
    rw [get_key_eq nfA (P.children childIdx) (t - 1) _ hsrcA (by simp only []; omega)
      (by omega)]
    exact hmkA
  rw [hkey_eval]
  simp only []
  have hpay_eval : get_payload nfA (P.children childIdx) (t - 1) =
      Except.ok (S.payloads (t - 1)) :=
    get_payload_eq nfA (P.children childIdx) (t - 1)
      ({ id := S.id, numKeys := t, isLeaf := S.isLeaf, keys := S.keys,
         payloads := S.payloads, children := S.children }) hsrcA
      (by simp only []; omega) (by omega)
  rw [hpay_eval]
  simp only []
  have hsnk : setNumKeys nfA (P.children childIdx) (t - 1) = Except.ok
      { nodes := nfA.nodes.set (P.children childIdx)
                   ({ id := S.id, numKeys := t - 1, isLeaf := S.isLeaf,
                      keys := S.keys, payloads := S.payloads,
                      children := S.children })
        keyStore := nfA.keyStore } :=
    setNumKeys_eq nfA (P.children childIdx) (t - 1)
      ({ id := S.id, numKeys := t, isLeaf := S.isLeaf, keys := S.keys,
         payloads := S.payloads, children := S.children }) hsrcA
  rw [hsnk]
  simp only []
  have hPB : ({ nodes := nfA.nodes.set (P.children childIdx)
                           ({ id := S.id, numKeys := t - 1, isLeaf := S.isLeaf,
                              keys := S.keys, payloads := S.payloads,
                              children := S.children })
                keyStore := nfA.keyStore } : NodeFile K).nodes[parent]? = some P := by
    simp only []
    rw [List.getElem?_set_ne hne, hfrA parent hpne (by omega)]
    exact hP
  rw [number_of_keys_eq _ parent P hPB]
  simp only []
  obtain ⟨nfC, PC, hfoldC, hfrC, hPC, hlenC, hPCnum, hPCid, hPCleaf, hPCch, hloC,
      hhiC, hshiftC, hslenC, hspresC⟩ :=
    shiftKP_full parent childIdx _ P hPB hcidx (by omega)
      (fun l h1 h2 => (hkvP l h1 h2).imp
        (fun k hk => kGet_preserved _ _ _ _ hspresA hk))
  simp only [bind, Except.bind] at hfoldC
  rw [hfoldC]
  simp only []
  have hlenC' : nfC.nodes.length = nfA.nodes.length := by
    rw [hlenC]
    simp
  have hslenC' : nfA.keyStore.length ≤ nfC.keyStore.length := hslenC
  have hspresC' : ∀ q, q < nfA.keyStore.length →
      nfC.keyStore[q]? = nfA.keyStore[q]? := hspresC
  have hPCcase : (childIdx < P.numKeys ∧ PC.numKeys = P.numKeys + 1) ∨
      (childIdx = P.numKeys ∧ PC.numKeys = P.numKeys) := by
    by_cases hlt : childIdx < P.numKeys
    · exact Or.inl ⟨hlt, by rw [hPCnum, if_pos hlt]⟩
    · exact Or.inr ⟨by omega, by rw [hPCnum, if_neg hlt]⟩
  have hPCleaf' : PC.isLeaf = false := hPCleaf.trans hPleaf
  rw [number_of_children_eq_internal nfC parent PC hPC hPCleaf']
  simp only []
  obtain ⟨nfD, PD, hfoldD, hfrD, hPD, hlenD, hPDnum, hPDid, hPDleaf, hPDkeys,
      hPDpay, hloD, hhiD, hshiftD, hstD⟩ :=
    shiftC_desc parent (PC.numKeys + 1 - childIdx) childIdx nfC PC hPC hPCleaf'
      (by omega) (by rw [hMC]; omega)
  rw [show childIdx + (PC.numKeys + 1 - childIdx) = PC.numKeys + 1 from by omega]
    at hhiD hshiftD
  simp only [bind, Except.bind] at hfoldD
  rw [hfoldD]
  simp only []
  have hstDlen : nfD.keyStore.length = nfC.keyStore.length := by rw [hstD]
  have hsk : set_key nfD parent childIdx mk = Except.ok
      { nodes := nfD.nodes.set parent
                   ({ id := PD.id, numKeys := P.numKeys + 1, isLeaf := PD.isLeaf,
                      keys := fun j => if j = childIdx then nfD.keyStore.length
                                       else PD.keys j,
                      payloads := PD.payloads, children := PD.children })
        keyStore := nfD.keyStore ++ [some mk] } := by
    rw [set_key_eq nfD parent childIdx mk PD hPD (by omega) (by omega)]
    by_cases h : childIdx = PD.numKeys
    · rw [if_pos h, show PD.numKeys + 1 = P.numKeys + 1 from by omega]
    · rw [if_neg h, show PD.numKeys = P.numKeys + 1 from by omega]
  rw [hsk]
  simp only []
  have hparltD : parent < nfD.nodes.length := by omega
  have hPE : ({ nodes := nfD.nodes.set parent
                           ({ id := PD.id, numKeys := P.numKeys + 1,
                              isLeaf := PD.isLeaf,
                              keys := fun j => if j = childIdx
                                               then nfD.keyStore.length
                                               else PD.keys j,
                              payloads := PD.payloads, children := PD.children })
                keyStore := nfD.keyStore ++ [some mk] } :
      NodeFile K).nodes[parent]? = some
      ({ id := PD.id, numKeys := P.numKeys + 1, isLeaf := PD.isLeaf,
         keys := fun j => if j = childIdx then nfD.keyStore.length else PD.keys j,
         payloads := PD.payloads, children := PD.children }) := by
    simp only []
    exact List.getElem?_set_self hparltD
  rw [set_payload_eq _ parent childIdx (S.payloads (t - 1)) _ hPE
    (by simp only []; omega) (by omega)]
  simp only []
  have hPF : (({ nodes := ((nfD.nodes.set parent
                              ({ id := PD.id, numKeys := P.numKeys + 1,
                                 isLeaf := PD.isLeaf,
                                 keys := fun j => if j = childIdx
                                                  then nfD.keyStore.length
                                                  else PD.keys j,
                                 payloads := PD.payloads,
                                 children := PD.children })).set parent
                              ({ id := PD.id, numKeys := P.numKeys + 1,
                                 isLeaf := PD.isLeaf,
                                 keys := fun j => if j = childIdx
                                                  then nfD.keyStore.length
                                                  else PD.keys j,
                                 payloads := fun j => if j = childIdx
                                                      then S.payloads (t - 1)
                                                      else PD.payloads j,
                                 children := PD.children }))
                 keyStore := nfD.keyStore ++ [some mk] } :
      NodeFile K)).nodes[parent]? = some
      ({ id := PD.id, numKeys := P.numKeys + 1, isLeaf := PD.isLeaf,
         keys := fun j => if j = childIdx then nfD.keyStore.length else PD.keys j,
         payloads := fun j => if j = childIdx then S.payloads (t - 1)
           else PD.payloads j,
         children := PD.children }) := by
    simp only []
    exact List.getElem?_set_self (by simp only [List.length_set]; omega)
  rw [set_child_eq _ parent (childIdx + 1) nf.nodes.length _ hPF
    (by simp only []; exact hPDleaf) (by simp only []; omega) (by rw [hMC]; omega)]
  simp only []
  refine ⟨_,
    ({ id := PD.id, numKeys := P.numKeys + 1, isLeaf := false,
       keys := fun j => if j = childIdx then nfD.keyStore.length else PD.keys j,
       payloads := fun j => if j = childIdx then S.payloads (t - 1)
         else PD.payloads j,
       children := fun j => if j = childIdx + 1 then nf.nodes.length
         else PD.children j }),
    TA, mk, rfl, ?_, ?_, ?_, ?_, by omega, hTAleaf, ?_, ?_, ?_, rfl, rfl,
    hPDid.trans hPCid, ?_, hmk, ?_, ?_, ?_, ?_, ?_, ?_⟩
  · simp only [List.length_set]
    omega
  · intro o ho hoc hol
    simp only []
    rw [List.getElem?_set_ne (Ne.symm ho), List.getElem?_set_ne (Ne.symm ho),
      List.getElem?_set_ne (Ne.symm ho), hfrD o ho, hfrC o ho]
    simp only []
    rw [List.getElem?_set_ne (Ne.symm hoc)]
    exact hfrA o hoc hol
  · simp only []
    rw [List.getElem?_set_ne hpne, List.getElem?_set_ne hpne,
      List.getElem?_set_ne hpne, hfrD _ hne, hfrC _ hne]
    simp only []
    exact List.getElem?_set_self (by omega)
  · simp only []
    have h1 : parent ≠ nf.nodes.length := by omega
    have h2 : P.children childIdx ≠ nf.nodes.length := by omega
    rw [List.getElem?_set_ne h1, List.getElem?_set_ne h1, List.getElem?_set_ne h1,
      hfrD _ (Ne.symm h1), hfrC _ (Ne.symm h1)]
    simp only []
    rw [List.getElem?_set_ne h2]
    exact htgtA
  · intro l hl
    obtain ⟨h1, h2⟩ := hTAcopy l (by omega)
    refine ⟨h1, ?_⟩
    intro k hk
    have hkA := h2 k hk
    refine kGet_preserved _ _ _ _ ?_ hkA
    intro q hq
    simp only []
    rw [List.getElem?_append_left (by omega), hstD]
    exact hspresC' q hq
  · intro hSl l hl
    exact hTAchild hSl l (by omega)
  · simp only []
    exact List.getElem?_set_self (by simp only [List.length_set]; omega)
  · intro l hl
    constructor
    · simp only []
      rw [if_neg (by omega : ¬ l = childIdx), hPDpay]
      exact (hloC l (by omega)).2
    · intro k hk
      simp only []
      rw [if_neg (by omega : ¬ l = childIdx), hPDkeys, (hloC l (by omega)).1]
      refine kGet_preserved _ _ _ _ ?_ (kGet_preserved _ _ _ _ hspresC'
        (kGet_preserved _ _ _ _ hspresA hk))
      intro q hq
      rw [List.getElem?_append_left (by omega), hstD]
  · have hv : kGet (nfD.keyStore ++ [some mk]) nfD.keyStore.length =
        Except.ok mk := by
      unfold kGet
      rw [List.getElem?_concat_length]
    simpa using hv
  · simp
  · intro l hl1 hl2
    constructor
    · simp only []
      rw [if_neg (by omega : ¬ l + 1 = childIdx), hPDpay]
      exact (hshiftC l hl1 hl2).2
    · intro k hk
      simp only []
      rw [if_neg (by omega : ¬ l + 1 = childIdx), hPDkeys]
      have hkC := (hshiftC l hl1 hl2).1 k (kGet_preserved _ _ _ _ hspresA hk)
      refine kGet_preserved _ _ _ _ ?_ hkC
      intro q hq
      rw [List.getElem?_append_left (by omega), hstD]
  · intro l hl
    simp only []
    rw [if_neg (by omega : ¬ l = childIdx + 1), hloD l hl, hPCch]
  · simp
  · intro l hl1 hl2
    simp only []
    rw [if_neg (by omega : ¬ l + 1 = childIdx + 1), hshiftD l (by omega) (by omega),
      hPCch]

end VKNode








namespace VKNode

theorem node_split_child_spec_witness :
    ∃ nf' P' T' mk,
      split_child c7nf 0 0 2 = Except.ok ((1, 2), nf') ∧
      nf'.nodes.length = 3 ∧
      (∀ o, o ≠ 0 → o ≠ 1 → o ≠ 2 → nf'.nodes[o]? = c7nf.nodes[o]?) ∧
      nf'.nodes[1]? = some
        { id := 1, numKeys := 1, isLeaf := true, keys := c7S.keys,
          payloads := c7S.payloads, children := c7S.children } ∧
      nf'.nodes[2]? = some T' ∧
      T'.numKeys = 1 ∧
      T'.isLeaf = c7S.isLeaf ∧
      (∀ l, l < 1 →
        T'.payloads l = c7S.payloads (2 + l) ∧
        (∀ k, kGet c7nf.keyStore (c7S.keys (2 + l)) = Except.ok k →
          kGet nf'.keyStore (T'.keys l) = Except.ok k)) ∧
      (c7S.isLeaf = false → ∀ l, l < 2 → T'.children l = c7S.children (2 + l)) ∧
      nf'.nodes[0]? = some P' ∧
      P'.numKeys = 2 ∧
      P'.isLeaf = false ∧
      P'.id = 0 ∧
      (∀ l, l < 0 →
        P'.payloads l = c7P.payloads l ∧
        (∀ k, kGet c7nf.keyStore (c7P.keys l) = Except.ok k →
          kGet nf'.keyStore (P'.keys l) = Except.ok k)) ∧
      kGet c7nf.keyStore (c7S.keys 1) = Except.ok mk ∧
      kGet nf'.keyStore (P'.keys 0) = Except.ok mk ∧
      P'.payloads 0 = c7S.payloads 1 ∧
      (∀ l, 0 ≤ l → l < 1 →
        P'.payloads (l + 1) = c7P.payloads l ∧
        (∀ k, kGet c7nf.keyStore (c7P.keys l) = Except.ok k →
          kGet nf'.keyStore (P'.keys (l + 1)) = Except.ok k)) ∧
      (∀ l, l ≤ 0 → P'.children l = c7P.children l) ∧
      P'.children 1 = 2 ∧
      (∀ l, 1 ≤ l → l ≤ 1 → P'.children (l + 1) = c7P.children l) :=
  node_split_child_spec c7nf 0 0 2 c7P c7S rfl rfl rfl (by decide) (by decide)
    (by decide) (by decide) rfl (by decide)
    (by
      intro l hl
      have hl3 : l < 3 := hl
      interval_cases l <;> exact ⟨_, rfl⟩)
    (by
      intro l _ hl
      have hl1 : l < 1 := hl
      interval_cases l
      exact ⟨_, rfl⟩)

end VKNode

namespace Inline

theorem set_payload_error_ne_nonExistingKey (ns : List Node) (id i v : Nat)
    (e : Error) (h : set_payload ns id i v = Except.error e) :
    e ≠ Error.nonExistingKey := by
  unfold set_payload getNode at h
  cases hq : ns[id]? with
  | none =>
    rw [hq] at h
    simp only [bind, Except.bind] at h
    injection h with h
    subst h
    intro hc
    cases hc
  | some nd =>
    rw [hq] at h
    simp only [bind, Except.bind] at h
    by_cases hb : i < nd.numKeys ∧ i < MAX_NUMBER_KEYS
    · rw [if_pos hb] at h
      cases h
    · rw [if_neg hb] at h
      injection h with h
      subst h
      intro hc
      cases hc

end Inline

/-- C5: `InlineKeyBtreeIndex::with_capacity` rejects every order below 2 with
`OrderTooSmall` and every order above `MAX_NUMBER_KEYS / 2` with
`OrderTooLarge`; for every order in between it succeeds with an empty index
(no elements, a single empty root node, and `get` returning `None` for every
key). -/
theorem inline_with_capacity_spec (V : Type) (order : Nat) :
    (order < 2 →
      Inline.with_capacity V order = Except.error (Error.orderTooSmall order)) ∧
    (Inline.MAX_NUMBER_KEYS / 2 < order →
      Inline.with_capacity V order = Except.error (Error.orderTooLarge order)) ∧
    (2 ≤ order → order ≤ Inline.MAX_NUMBER_KEYS / 2 →
      ∃ ix, Inline.with_capacity V order = Except.ok ix ∧
        ix.nr_elements = 0 ∧
        ix.order = order ∧
        ix.root_id = 0 ∧
        ix.nodes.length = 1 ∧
        (∀ k, Inline.get ix k = Except.ok none)) := by
  refine ⟨?_, ?_, ?_⟩
  · intro h
    unfold Inline.with_capacity
    rw [if_pos h]
  · intro h
    unfold Inline.with_capacity
    rw [if_neg (by unfold Inline.MAX_NUMBER_KEYS at h; omega), if_pos h]
  · intro h1 h2
    unfold Inline.with_capacity
    rw [if_neg (by omega), if_neg (by omega)]
    exact ⟨_, rfl, rfl, rfl, rfl, rfl, fun k => rfl⟩

/-- Witness for `inline_with_capacity_spec` at the orders 1, 85 and 2. -/
theorem inline_with_capacity_spec_witness :
    Inline.with_capacity Nat 1 = Except.error (Error.orderTooSmall 1) ∧
    Inline.with_capacity Nat 85 = Except.error (Error.orderTooLarge 85) ∧
    ∃ ix, Inline.with_capacity Nat 2 = Except.ok ix ∧
      ix.nr_elements = 0 ∧
      ix.order = 2 ∧
      ix.root_id = 0 ∧
      ix.nodes.length = 1 ∧
      (∀ k, Inline.get ix k = Except.ok none) :=
  ⟨(inline_with_capacity_spec Nat 1).1 (by decide),
   (inline_with_capacity_spec Nat 85).2.1 (by decide),
   (inline_with_capacity_spec Nat 2).2.2 (by decide) (by decide)⟩

/-- C9: when `InlineKeyBtreeIndex::swap` fails with `NonExistingKey` (one of
the two keys is absent), the index state is unchanged — no payload slot was
modified — and every subsequent `get` returns the same result as before. -/
theorem inline_swap_missing_key_no_mutation (V : Type) (ix ix' : Inline.Index V)
    (a b : Nat)
    (h : Inline.swap ix a b = (ix', some Error.nonExistingKey)) :
    ix' = ix ∧ ∀ k, Inline.get ix' k = Inline.get ix k := by
  have hmain : ix' = ix := by
    unfold Inline.swap at h
    split at h
    · injection h with h1 h2
      exact h1.symm
    · injection h with h1 h2
      exact h1.symm
    · split at h
      · injection h with h1 h2
        exact h1.symm
      · injection h with h1 h2
        exact h1.symm
      · split at h
        · injection h with h1 h2
          exact h1.symm
        · split at h
          · injection h with h1 h2
            exact h1.symm
          · split at h
            · injection h with h1 h2
              exact h1.symm
            · split at h
              · rename_i e hsp
                injection h with h1 h2
                injection h2 with h2
                exact absurd h2
                  (Inline.set_payload_error_ne_nonExistingKey _ _ _ _ _ hsp)
              · injection h with h1 h2
                cases h2
  exact ⟨hmain, fun k => by rw [hmain]⟩

/-- Witness for `inline_swap_missing_key_no_mutation`: swapping the present
key 1 with the absent key 99 in the one-entry index fails with
`NonExistingKey` and leaves the state identical. -/
theorem inline_swap_missing_key_no_mutation_witness :
    c9ix = c9ix ∧ Inline.get c9ix 99 = Inline.get c9ix 99 :=
  ⟨(inline_swap_missing_key_no_mutation Nat c9ix c9ix 1 99 rfl).1,
   (inline_swap_missing_key_no_mutation Nat c9ix c9ix 1 99 rfl).2 99⟩


/-- C3: refuted on `src/btree.rs`.  `BtreeIndex::insert` returns
`Result<()>`, so it never returns the previously stored value, and its
overwrite behaviour also breaks: on the order-2 index holding
`(1,10) … (5,50)` (key 4 present with value 40), a second insert of key 4
with value 60 descends through the promoted-median equality path of
`insert_nonfull` and leaves `get(4)` at the old value 40 instead of the
newly inserted 60.  The sibling `InlineKeyBtreeIndex::insert` (the other
cited source) does implement the claim on the same scenario: it returns the
previous value `Some 40` and `get(4)` afterwards yields the new value 60. -/
theorem btree_insert_overwrite_return_miss :
    c34pre.bind (fun t => VecBtree.getB t 4) = Except.ok (some 40) ∧
    c34post.bind (fun t => VecBtree.getB t 4) = Except.ok (some 40) ∧
    inl34pre.bind (fun ix => (Inline.insert ix 4 60).map (fun p => p.1)) =
      Except.ok (some 40) ∧
    inl34pre.bind (fun ix => do
        let (_, ix) ← Inline.insert ix 4 60
        Inline.get ix 4) = Except.ok (some 60) := by
  decide

/-- C4: refuted on `src/btree.rs`.  In `c34pre` the insert of key 4 descends
through the internal root node 1 (binary search misses at position 1), the
target child 2 is full with `2*order-1 = 3` keys, and the key promoted by
the split — the last key of the lower half `take order`, i.e. key 4 — equals
the inserted key.  The claim then demands an overwrite with `len()`
unchanged and no duplicate, but `insert_nonfull` only tests
`promoted.key < key`, descends into the left child and creates a second
entry for key 4: `len()` grows from 5 to 6 and the full scan shows key 4
twice.  The sibling `InlineKeyBtreeIndex::insert_nonfull` (the other cited
source) handles the equality case and keeps `len()` at 5. -/
theorem btree_promoted_median_equality_duplicates :
    c34pre.bind (fun t => VecBtree.storeGet t.keys t.rootId) =
      Except.ok { id := 1, keys := [{ key := 2, payloadId := 1 }],
                  childNodes := [0, 2] } ∧
    VecBtree.bsVec [({ key := 2, payloadId := 1 } : VecBtree.KeyE Nat)] 4 =
      VecBtree.BsResult.notFound 1 ∧
    c34pre.bind (fun t => VecBtree.storeGet t.keys 2) =
      Except.ok { id := 2,
                  keys := [{ key := 3, payloadId := 2 },
                           { key := 4, payloadId := 3 },
                           { key := 5, payloadId := 4 }],
                  childNodes := [] } ∧
    c34pre.map (fun t => (t.order, t.nrElements)) = Except.ok (2, 5) ∧
    c34post.map (fun t => t.nrElements) = Except.ok 6 ∧
    c34post.bind (fun t =>
        VecBtree.rangeList t VecBtree.RBound.unbounded VecBtree.RBound.unbounded
          100) =
      Except.ok [(1, 10), (2, 20), (3, 30), (4, 60), (4, 40), (5, 50)] ∧
    inl34pre.bind (fun ix => (Inline.insert ix 4 60).map
        (fun p => p.2.nr_elements)) = Except.ok 5 := by
  decide
